import Mathlib

/-!
Verification of the cloudless-cart secure token composition protocol
(`src/jsonSignature.ts`, `src/tokenCrypto.ts`, `src/cloudlessCrypto.ts`,
`src/utils/compression.ts`).

The development shallowly embeds the TypeScript sources:

* JavaScript JSON values are the inductive `Json` (objects are
  insertion-ordered association lists, as in JS).
* `fast-json-stable-stringify` is embedded concretely: `sortJson`
  recursively sorts object keys and `serialize` prints in order, so
  `stringify = serialize ∘ sortJson`.  Plain `JSON.stringify` (used by
  `encryptToken`'s compression step) is `serialize` alone.
* External capabilities that the repository explicitly treats as
  collaborators (jose's cryptographic primitives, Node/browser
  compression codecs, `crypto.createHash`, `JSON.parse`) are modelled
  as parameters of a `Runtime` record; byte sequences are modelled as
  binary-safe strings, and the utf8/base64 transport layers (bijections
  in the source) as the identity.  Ideal-functionality models are used
  for signatures and public-key encryption: a signature records the
  signing key handle and the exact protected header and payload bytes
  it covers; a JWE compact string is an opaque handle into the world's
  ciphertext table.
* Mutable state (the shared key store, fresh UUIDs/JWE outputs,
  `Date.now()`) is threaded through an explicit `World` record.
-/

namespace Cloudless

/-- JavaScript JSON values.  Objects are insertion-ordered lists of
fields, mirroring JS property order; duplicate keys cannot arise from
JS object literals, so well-formedness is tracked where needed. -/
inductive Json where
  | null : Json
  | bool (b : Bool) : Json
  | num (n : Int) : Json
  | str (s : String) : Json
  | arr (elems : List Json) : Json
  | obj (fields : List (String × Json)) : Json

mutual

/-- Structural equality test on `Json` (deriving is unavailable for
this nested inductive). -/
def beqJson : Json → Json → Bool
  | .null, .null => true
  | .bool a, .bool b => a == b
  | .num a, .num b => a == b
  | .str a, .str b => a == b
  | .arr xs, .arr ys => beqElems xs ys
  | .obj fs, .obj gs => beqFields fs gs
  | _, _ => false
  termination_by structural a => a

/-- Pointwise equality test on element lists. -/
def beqElems : List Json → List Json → Bool
  | [], [] => true
  | x :: xs, y :: ys => beqJson x y && beqElems xs ys
  | _, _ => false
  termination_by structural l => l

/-- Pointwise equality test on field lists. -/
def beqFields : List (String × Json) → List (String × Json) → Bool
  | [], [] => true
  | (k, v) :: fs, (k', v') :: gs => k == k' && beqJson v v' && beqFields fs gs
  | _, _ => false
  termination_by structural l => l

end

mutual

theorem eq_of_beqJson : ∀ a b, beqJson a b = true → a = b
  | .null, .null, _ => rfl
  | .null, .bool _, h => by simp [beqJson] at h
  | .null, .num _, h => by simp [beqJson] at h
  | .null, .str _, h => by simp [beqJson] at h
  | .null, .arr _, h => by simp [beqJson] at h
  | .null, .obj _, h => by simp [beqJson] at h
  | .bool _, .null, h => by simp [beqJson] at h
  | .bool a, .bool b, h => by
    simp only [beqJson, beq_iff_eq] at h; exact congrArg Json.bool h
  | .bool _, .num _, h => by simp [beqJson] at h
  | .bool _, .str _, h => by simp [beqJson] at h
  | .bool _, .arr _, h => by simp [beqJson] at h
  | .bool _, .obj _, h => by simp [beqJson] at h
  | .num _, .null, h => by simp [beqJson] at h
  | .num _, .bool _, h => by simp [beqJson] at h
  | .num a, .num b, h => by
    simp only [beqJson, beq_iff_eq] at h; exact congrArg Json.num h
  | .num _, .str _, h => by simp [beqJson] at h
  | .num _, .arr _, h => by simp [beqJson] at h
  | .num _, .obj _, h => by simp [beqJson] at h
  | .str _, .null, h => by simp [beqJson] at h
  | .str _, .bool _, h => by simp [beqJson] at h
  | .str _, .num _, h => by simp [beqJson] at h
  | .str a, .str b, h => by
    simp only [beqJson, beq_iff_eq] at h; exact congrArg Json.str h
  | .str _, .arr _, h => by simp [beqJson] at h
  | .str _, .obj _, h => by simp [beqJson] at h
  | .arr _, .null, h => by simp [beqJson] at h
  | .arr _, .bool _, h => by simp [beqJson] at h
  | .arr _, .num _, h => by simp [beqJson] at h
  | .arr _, .str _, h => by simp [beqJson] at h
  | .arr xs, .arr ys, h => by
    simp only [beqJson] at h
    exact congrArg Json.arr (eq_of_beqElems xs ys h)
  | .arr _, .obj _, h => by simp [beqJson] at h
  | .obj _, .null, h => by simp [beqJson] at h
  | .obj _, .bool _, h => by simp [beqJson] at h
  | .obj _, .num _, h => by simp [beqJson] at h
  | .obj _, .str _, h => by simp [beqJson] at h
  | .obj _, .arr _, h => by simp [beqJson] at h
  | .obj fs, .obj gs, h => by
    simp only [beqJson] at h
    exact congrArg Json.obj (eq_of_beqFields fs gs h)

theorem eq_of_beqElems : ∀ xs ys, beqElems xs ys = true → xs = ys
  | [], [], _ => rfl
  | [], _ :: _, h => by simp [beqElems] at h
  | _ :: _, [], h => by simp [beqElems] at h
  | x :: xs, y :: ys, h => by
    simp only [beqElems, Bool.and_eq_true] at h
    rw [eq_of_beqJson x y h.1, eq_of_beqElems xs ys h.2]

theorem eq_of_beqFields : ∀ fs gs, beqFields fs gs = true → fs = gs
  | [], [], _ => rfl
  | [], _ :: _, h => by simp [beqFields] at h
  | _ :: _, [], h => by simp [beqFields] at h
  | (k, v) :: fs, (k', v') :: gs, h => by
    simp only [beqFields, Bool.and_eq_true, beq_iff_eq] at h
    rw [h.1.1, eq_of_beqJson v v' h.1.2, eq_of_beqFields fs gs h.2]

end

mutual

theorem beqJson_refl : ∀ a, beqJson a a = true
  | .null => rfl
  | .bool b => by simp [beqJson]
  | .num n => by simp [beqJson]
  | .str s => by simp [beqJson]
  | .arr xs => by simp only [beqJson]; exact beqElems_refl xs
  | .obj fs => by simp only [beqJson]; exact beqFields_refl fs

theorem beqElems_refl : ∀ xs, beqElems xs xs = true
  | [] => rfl
  | x :: xs => by
    simp only [beqElems, Bool.and_eq_true]
    exact ⟨beqJson_refl x, beqElems_refl xs⟩

theorem beqFields_refl : ∀ fs, beqFields fs fs = true
  | [] => rfl
  | (k, v) :: fs => by
    simp only [beqFields, Bool.and_eq_true, beq_self_eq_true]
    exact ⟨⟨trivial, beqJson_refl v⟩, beqFields_refl fs⟩

end

instance : DecidableEq Json := fun a b =>
  if h : beqJson a b = true then .isTrue (eq_of_beqJson a b h)
  else .isFalse fun he => h (he ▸ beqJson_refl a)

/-- JS property lookup on an association list: the first binding wins
(JS objects cannot hold two bindings for one key). -/
def jGet : List (String × Json) → String → Option Json
  | [], _ => none
  | (k', v) :: rest, k => if k' = k then some v else jGet rest k

/-- JS property access `o[k]` on a JSON value; `undefined` is `none`.
Only object properties are needed by the embedded code paths. -/
def getField : Json → String → Option Json
  | .obj fs, k => jGet fs k
  | _, _ => none

/-- JavaScript truthiness of a JSON value. -/
def jsTruthy : Json → Bool
  | .null => false
  | .bool b => b
  | .num n => n != 0
  | .str s => !s.data.isEmpty
  | .arr _ => true
  | .obj _ => true

/-- Truthiness of a possibly-`undefined` value. -/
def jsTruthyOpt : Option Json → Bool
  | none => false
  | some j => jsTruthy j

/-- JS spread-then-assign `{...o, k: v}`: an existing binding keeps its
position and is overwritten, a new binding is appended. -/
def setField : List (String × Json) → String → Json → List (String × Json)
  | [], k, v => [(k, v)]
  | (k', v') :: rest, k, v =>
    if k' = k then (k, v) :: rest else (k', v') :: setField rest k v

/-- Opening brace character (0x7b). -/
def lbrace : Char := Char.ofNat 123

/-- Closing brace character (0x7d). -/
def rbrace : Char := Char.ofNat 125

/-- Hex digit characters, used by `JSON.stringify` control escapes. -/
def hexDigit (n : Nat) : Char :=
  if n < 10 then Char.ofNat (48 + n) else Char.ofNat (87 + n)

/-- `JSON.stringify` escaping of a single character inside a string
literal (quote, backslash, the named control escapes, `\u00XX` for
other control characters). -/
def escChar (c : Char) : List Char :=
  if c = '"' then ['\\', '"']
  else if c = '\\' then ['\\', '\\']
  else if c = '\n' then ['\\', 'n']
  else if c = '\t' then ['\\', 't']
  else if c = '\r' then ['\\', 'r']
  else if c = Char.ofNat 8 then ['\\', 'b']
  else if c = Char.ofNat 12 then ['\\', 'f']
  else if c.toNat < 32 then
    ['\\', 'u', '0', '0', hexDigit (c.toNat / 16), hexDigit (c.toNat % 16)]
  else [c]

/-- `JSON.stringify` of a string value: quoted and escaped. -/
def jsonQuote (s : String) : List Char :=
  '"' :: (s.data.flatMap escChar) ++ ['"']

mutual

/-- `JSON.stringify` (insertion order preserved), producing the
character list of the serialization.  `fast-json-stable-stringify`
is this applied after `sortJson`. -/
def serialize : Json → List Char
  | .null => "null".data
  | .bool true => "true".data
  | .bool false => "false".data
  | .num n => (toString n).data
  | .str s => jsonQuote s
  | .arr xs => '[' :: serializeElems xs ++ [']']
  | .obj fs => lbrace :: serializeFields fs ++ [rbrace]
  termination_by structural j => j

/-- Comma-joined serialization of array elements. -/
def serializeElems : List Json → List Char
  | [] => []
  | [x] => serialize x
  | x :: y :: rest => serialize x ++ ',' :: serializeElems (y :: rest)
  termination_by structural l => l

/-- Comma-joined serialization of object fields, in list order. -/
def serializeFields : List (String × Json) → List Char
  | [] => []
  | [(k, v)] => jsonQuote k ++ ':' :: serialize v
  | (k, v) :: g :: rest =>
    jsonQuote k ++ ':' :: serialize v ++ ',' :: serializeFields (g :: rest)
  termination_by structural l => l

end

/-- Computable lexicographic (code-point) order on character lists:
the default string comparison of JS `Array.prototype.sort()` used by
`fast-json-stable-stringify`'s `keys.sort()` (UTF-16 code-unit order in
JS; identical on the basic multilingual plane). -/
def listLeB : List Char → List Char → Bool
  | [], _ => true
  | _ :: _, [] => false
  | a :: as, b :: bs =>
    if a.toNat < b.toNat then true
    else if b.toNat < a.toNat then false
    else listLeB as bs

theorem char_toNat_inj {a b : Char} (h : a.toNat = b.toNat) : a = b := by
  apply Char.ext
  apply UInt32.toNat.inj
  exact h

theorem listLeB_total (x y : List Char) : listLeB x y = true ∨ listLeB y x = true := by
  induction x generalizing y with
  | nil => left; rfl
  | cons a as ih =>
    cases y with
    | nil => right; rfl
    | cons b bs =>
      rcases Nat.lt_trichotomy a.toNat b.toNat with h | h | h
      · left; simp [listLeB, h]
      · rcases ih bs with h2 | h2
        · left
          simp only [listLeB]
          rw [if_neg (by omega), if_neg (by omega)]
          exact h2
        · right
          simp only [listLeB]
          rw [if_neg (by omega), if_neg (by omega)]
          exact h2
      · right; simp [listLeB, h]

theorem listLeB_trans : ∀ x y z, listLeB x y = true → listLeB y z = true →
    listLeB x z = true
  | [], _, _, _, _ => rfl
  | _ :: _, [], _, h, _ => by simp [listLeB] at h
  | _ :: _, _ :: _, [], _, h => by simp [listLeB] at h
  | a :: as, b :: bs, c :: cs, h1, h2 => by
    rcases Nat.lt_trichotomy a.toNat c.toNat with hac | hac | hac
    · simp [listLeB, hac]
    · rcases Nat.lt_trichotomy a.toNat b.toNat with hab | hab | hab
      · exfalso
        simp only [listLeB] at h2
        rw [if_neg (by omega), if_pos (by omega)] at h2
        exact Bool.noConfusion h2
      · simp only [listLeB] at h1 h2 ⊢
        rw [if_neg (by omega), if_neg (by omega)] at h1
        rw [if_neg (by omega), if_neg (by omega)] at h2
        rw [if_neg (by omega), if_neg (by omega)]
        exact listLeB_trans as bs cs h1 h2
      · exfalso
        simp only [listLeB] at h1
        rw [if_neg (by omega), if_pos (by omega)] at h1
        exact Bool.noConfusion h1
    · exfalso
      rcases Nat.lt_trichotomy a.toNat b.toNat with hab | hab | hab
      · simp only [listLeB] at h2
        rw [if_neg (by omega), if_pos (by omega)] at h2
        exact Bool.noConfusion h2
      · simp only [listLeB] at h2
        rw [if_neg (by omega), if_pos (by omega)] at h2
        exact Bool.noConfusion h2
      · simp only [listLeB] at h1
        rw [if_neg (by omega), if_pos (by omega)] at h1
        exact Bool.noConfusion h1

theorem listLeB_antisymm : ∀ x y, listLeB x y = true → listLeB y x = true → x = y
  | [], [], _, _ => rfl
  | [], _ :: _, _, h => by simp [listLeB] at h
  | _ :: _, [], h, _ => by simp [listLeB] at h
  | a :: as, b :: bs, h1, h2 => by
    rcases Nat.lt_trichotomy a.toNat b.toNat with hab | hab | hab
    · exfalso
      simp only [listLeB] at h2
      rw [if_neg (by omega), if_pos (by omega)] at h2
      exact Bool.noConfusion h2
    · have ha : a = b := char_toNat_inj hab
      simp only [listLeB] at h1 h2
      rw [if_neg (by omega), if_neg (by omega)] at h1
      rw [if_neg (by omega), if_neg (by omega)] at h2
      rw [ha, listLeB_antisymm as bs h1 h2]
    · exfalso
      simp only [listLeB] at h1
      rw [if_neg (by omega), if_pos (by omega)] at h1
      exact Bool.noConfusion h1

/-- Key order used by `fast-json-stable-stringify`'s `keys.sort()`. -/
def keyLe (a b : String × Json) : Prop := listLeB a.1.data b.1.data = true

instance : DecidableRel keyLe := fun a b =>
  inferInstanceAs (Decidable (_ = true))

instance : IsTotal (String × Json) keyLe :=
  ⟨fun a b => listLeB_total a.1.data b.1.data⟩

instance : IsTrans (String × Json) keyLe :=
  ⟨fun _ _ _ h h' => listLeB_trans _ _ _ h h'⟩

/-- `keyLe` both ways forces equal keys. -/
theorem keyLe_antisymm_key {a b : String × Json} (h1 : keyLe a b) (h2 : keyLe b a) :
    a.1 = b.1 := by
  have h := listLeB_antisymm a.1.data b.1.data h1 h2
  cases ha : a.1
  cases hb : b.1
  rw [ha, hb] at h
  exact congrArg String.mk h

/-- Decidable equality of call results. -/
instance {ε α : Type} [DecidableEq ε] [DecidableEq α] : DecidableEq (Except ε α) :=
  fun a b =>
    match a, b with
    | .ok x, .ok y =>
      if h : x = y then .isTrue (h ▸ rfl) else .isFalse (fun he => h (Except.ok.inj he))
    | .error x, .error y =>
      if h : x = y then .isTrue (h ▸ rfl) else .isFalse (fun he => h (Except.error.inj he))
    | .ok _, .error _ => .isFalse (fun he => Except.noConfusion he)
    | .error _, .ok _ => .isFalse (fun he => Except.noConfusion he)

mutual

/-- Recursive key-sorting normalization performed by
`fast-json-stable-stringify`: each object's keys are sorted, depth
first.  `JSON.parse` of a canonical serialization yields exactly the
`sortJson` image of the original value. -/
def sortJson : Json → Json
  | .null => .null
  | .bool b => .bool b
  | .num n => .num n
  | .str s => .str s
  | .arr xs => .arr (sortElems xs)
  | .obj fs => .obj (List.insertionSort keyLe (sortKids fs))
  termination_by structural j => j

/-- `sortJson` mapped over array elements. -/
def sortElems : List Json → List Json
  | [] => []
  | x :: xs => sortJson x :: sortElems xs
  termination_by structural l => l

/-- `sortJson` mapped over the values of object fields. -/
def sortKids : List (String × Json) → List (String × Json)
  | [] => []
  | (k, v) :: fs => (k, sortJson v) :: sortKids fs
  termination_by structural l => l

end

/-- `fast-json-stable-stringify`: deterministic, key-order-independent
serialization (recursively sorted keys), as a string. -/
def stringify (v : Json) : String :=
  String.mk (serialize (sortJson v))

/-- Plain `JSON.stringify` (insertion order preserved), as a string. -/
def serializeStr (v : Json) : String :=
  String.mk (serialize v)

/-! ## Standard claim stripping (`cloudlessCrypto.ts` lines 144-153) -/

/-- The seven standard JWT claim names deleted by `verifyThenDecrypt`
before hash re-verification. -/
def claimNames : List String :=
  ["iat", "exp", "aud", "iss", "jti", "nbf", "sub"]

/-- JS spread `{...v}` as a field list: objects keep their fields,
arrays and strings spread to index-keyed fields, primitives spread to
the empty object. -/
def jsSpread : Json → List (String × Json)
  | .obj fs => fs
  | .arr xs => (xs.enum.map fun p => (toString p.1, p.2))
  | .str s => (s.data.enum.map fun p => (toString p.1, Json.str (String.mk [p.2])))
  | _ => []

/-- `const o = {...decrypted}; delete o.iat; ... delete o.sub;`
(`cloudlessCrypto.ts` lines 145-153): exactly the seven standard claim
fields are removed. -/
def stripClaims (j : Json) : Json :=
  .obj ((jsSpread j).filter fun f => !(claimNames.contains f.1))

/-! ## Compression utility (`src/utils/compression.ts`) -/

/-- `CompressionMethod` from `compression.ts`. -/
inductive CompressionMethod where
  | brotli : CompressionMethod
  | gzip : CompressionMethod
  | nocomp : CompressionMethod
deriving DecidableEq

/-- `CompressionOptions` from `compression.ts`. -/
structure CompressionOptions where
  method : Option CompressionMethod := none
  mode : Option Nat := none
  quality : Option Nat := none
  lgwin : Option Nat := none
deriving DecidableEq

/-- External capabilities of the JavaScript runtime.  The repository
treats the cryptographic primitives (jose), the compression codecs
(node `brotli`/`zlib`, browser `brotli-wasm`/`CompressionStream`),
`crypto.createHash('sha256')` and `JSON.parse` as collaborator
interfaces; they are modelled as parameters.  Byte sequences are
binary-safe strings; a codec returning `none` models the codec being
unavailable or throwing. -/
structure Runtime where
  isNode : Bool
  isBrowser : Bool
  wasmEnabled : Bool
  nodeBrotliCompress : String → CompressionOptions → Option String
  nodeBrotliDecompress : String → Option String
  nodeGzipCompress : String → CompressionOptions → Option String
  nodeGzipDecompress : String → Option String
  browserBrotliCompress : String → CompressionOptions → Option String
  browserBrotliDecompress : String → Option String
  browserGzipCompress : String → Option String
  browserGzipDecompress : String → Option String
  sha256 : String → String
  jsonParse : String → Option Json

/-- gzip magic-byte test from `decompress` (`compression.ts` line 310):
`data[0] === 0x1f && data[1] === 0x8b`. -/
def hasGzipMagic (s : String) : Bool :=
  match s.data with
  | a :: b :: _ => a = Char.ofNat 0x1f ∧ b = Char.ofNat 0x8b
  | _ => false

/-- `compress` (`compression.ts` lines 254-298).  Total: every codec
failure is caught (`catch` + final fallback `return data`), and in the
browser a brotli request falls back to gzip when WASM is not enabled
or the brotli codec throws. -/
def compress (rt : Runtime) (data : String) (options : CompressionOptions) : String :=
  let method := options.method.getD .brotli
  if method = .nocomp then data
  else if rt.isNode then
    match method with
    | .brotli =>
      match rt.nodeBrotliCompress data options with
      | some r => r
      | none => data
    | .gzip =>
      match rt.nodeGzipCompress data options with
      | some r => r
      | none => data
    | .nocomp => data
  else if rt.isBrowser then
    match method with
    | .brotli =>
      if !rt.wasmEnabled then
        match rt.browserGzipCompress data with
        | some r => r
        | none => data
      else
        match rt.browserBrotliCompress data options with
        | some r => r
        | none =>
          match rt.browserGzipCompress data with
          | some r => r
          | none => data
    | .gzip =>
      match rt.browserGzipCompress data with
      | some r => r
      | none => data
    | .nocomp => data
  else data

/-- `decompress` (`compression.ts` lines 303-355).  When no method is
given, gzip is detected by magic bytes and brotli is the fallback
guess.  Every codec failure is caught and the final fallback returns
the input unchanged ("Decompression failed, returning data as-is"). -/
def decompress (rt : Runtime) (data : String) (methodArg : Option CompressionMethod) : String :=
  let method :=
    match methodArg with
    | some m => m
    | none => if hasGzipMagic data then .gzip else .brotli
  if method = .nocomp then data
  else if rt.isNode then
    match method with
    | .brotli =>
      match rt.nodeBrotliDecompress data with
      | some r => r
      | none => data
    | .gzip =>
      match rt.nodeGzipDecompress data with
      | some r => r
      | none => data
    | .nocomp => data
  else if rt.isBrowser then
    match method with
    | .brotli =>
      if !rt.wasmEnabled then
        match rt.browserGzipDecompress data with
        | some r => r
        | none => data
      else
        match rt.browserBrotliDecompress data with
        | some r => r
        | none =>
          match rt.browserGzipDecompress data with
          | some r => r
          | none => data
    | .gzip =>
      match rt.browserGzipDecompress data with
      | some r => r
      | none => data
    | .nocomp => data
  else data

/-! ## Key store and world state -/

/-- `KeyPair` from `jsonSignature.ts`.  Key handles are natural
numbers; a matching public/private pair shares one handle (the ideal
model of an asymmetric key pair). -/
structure KeyPair where
  publicKey : Option Nat := none
  privateKey : Option Nat := none
  alg : Option String := none
deriving DecidableEq

/-- The shared `KeyStore` (a `Map`): an association list where `set`
prepends (so the newest binding wins on `get`, as for `Map.set`). -/
abbrev KeyStore := List (String × KeyPair)

/-- `KeyStore.get`. -/
def storeGet : KeyStore → String → Option KeyPair
  | [], _ => none
  | (k', v) :: rest, k => if k' = k then some v else storeGet rest k

/-- JWE protected header built by `encryptToken` (`tokenCrypto.ts`
lines 187-196). -/
structure JweHeader where
  alg : String
  enc : String
  kid : String
  zip : Option String := none
deriving DecidableEq

/-- The content addressed by a JWE compact serialization, in the ideal
encryption model: the recipient's public-key handle, the protected
header, and the JWT claims object that decryption recovers. -/
structure TokenData where
  keyHandle : Nat
  header : JweHeader
  claims : List (String × Json)
deriving DecidableEq

/-- World state threaded through the engines: the shared key store,
the table of issued ciphertexts (ideal encryption: a compact JWE
string is an opaque handle into this table), a counter supplying
fresh UUIDs/handles/ciphertext names, and the clock (`Date.now()`,
jose's `iat`/`exp` clock). -/
structure World where
  keys : KeyStore
  ciphertexts : List (String × TokenData)
  counter : Nat
  now : Int

/-- Fresh identifier for generated keys (`uuidv4` model): injective by
length, distinct from ciphertext names by its head character. -/
def keyName (n : Nat) : String :=
  String.mk ('k' :: List.replicate n 'u')

/-- Fresh name for an issued JWE compact string (the ciphertext bytes
are opaque; only identity matters). -/
def tokName (n : Nat) : String :=
  String.mk ('t' :: List.replicate n 'u')

/-- Ciphertext-table lookup (decryption in the ideal model). -/
def tokGet : List (String × TokenData) → String → Option TokenData
  | [], _ => none
  | (k', v) :: rest, k => if k' = k then some v else tokGet rest k

/-! ## Signing engine (`src/jsonSignature.ts`) -/

/-- Protected JWS header as built by `sign` (`jsonSignature.ts` lines
112-117); the constant `b64:false, crit:['b64']` fields are elided. -/
structure ProtectedHeader where
  alg : Option String := none
  kid : Option String := none
deriving DecidableEq

/-- The encoded `protected` field of a `SignedObject`:
`good` decodes to a header, `bad` models a malformed or missing
encoded header (`jose.decodeProtectedHeader` throws the carried
message). -/
inductive HeaderEnc where
  | good (h : ProtectedHeader) : HeaderEnc
  | bad (msg : String) : HeaderEnc
deriving DecidableEq

/-- A JWS signature value, ideal model: `valid` records the signing
key handle and the exact protected header and payload bytes covered;
`garbage` is any other string (e.g. a corrupted signature). -/
inductive SigTok where
  | valid (keyHandle : Nat) (header : ProtectedHeader) (msg : String) : SigTok
  | garbage (s : String) : SigTok
deriving DecidableEq

/-- `SignedObject` from `jsonSignature.ts`:
`{signature, protected, payload}`. -/
structure SignedObject where
  signature : SigTok
  protEnc : HeaderEnc
  payload : Json
deriving DecidableEq

/-- Result of `JsonSignature.verify`: the source returns either the
deserialized payload or an `{error: ...}`-tagged object, and never
throws.  `err m` embeds `{error: m}`. -/
inductive VerifyResult where
  | ok (payload : Json) : VerifyResult
  | err (msg : String) : VerifyResult
deriving DecidableEq

/-- The JS object a `VerifyResult` stands for. -/
def VerifyResult.toJson : VerifyResult → Json
  | .ok p => p
  | .err m => .obj [("error", .str m)]

/-- JS falsiness of an optional string (`undefined` or `''`). -/
def strFalsy : Option String → Bool
  | none => true
  | some s => s.data.isEmpty

namespace JsonSignature

/-- `generateKeyPair` (`jsonSignature.ts` lines 82-96): a fresh pair
under a fresh uuid, both halves stored with the algorithm tag. -/
def generateKeyPair (w : World) (alg : String) : String × World :=
  let key := keyName w.counter
  (key,
   { w with
     keys := (key, { publicKey := some w.counter, privateKey := some w.counter,
                     alg := some alg }) :: w.keys
     counter := w.counter + 1 })

/-- `sign` (`jsonSignature.ts` lines 98-128): requires a private key,
canonicalizes the object with `fast-json-stable-stringify`, signs the
canonical bytes under the protected header, and returns the envelope
whose `payload` is `JSON.parse(input)` — i.e. the canonically
key-sorted object `sortJson obj`. -/
def sign (keys : KeyStore) (key : String) (obj : Json) : Except String SignedObject :=
  match storeGet keys key with
  | none => .error "Key not found"
  | some kp =>
    match kp.privateKey with
    | none => .error "Key not found"
    | some sk =>
      let input := stringify obj
      let header : ProtectedHeader := { alg := kp.alg, kid := some key }
      .ok { signature := .valid sk header input
            protEnc := .good header
            payload := sortJson obj }

/-- The jose `flattenedVerify` algorithm check: when the key record
carries an algorithm, `verify` passes `{algorithms: [alg]}` and the
header algorithm must match (`jsonSignature.ts` lines 167-170). -/
def algOk (kpAlg hAlg : Option String) : Bool :=
  match kpAlg with
  | some a => hAlg == some a
  | none => true

/-- The key-id resolution of `_verify` (`jsonSignature.ts` lines
143-155): a supplied truthy `keyId` wins; otherwise a truthy embedded
`header.kid` is used; otherwise no key id resolves (`no key found`). -/
def resolvedKid (key : Option String) (h : ProtectedHeader) : Option String :=
  if strFalsy key then
    if !strFalsy h.kid then h.kid else none
  else key

/-- `_verify` (`jsonSignature.ts` lines 142-185).  Returns an
error-tagged result — never throws — when the protected header is
malformed, no key id can be resolved, no public key exists under the
resolved id, or the cryptographic check fails; on success it returns
`JSON.parse` of the canonical payload bytes, i.e. `sortJson
signed.payload`.  (`verify` runs `_verify` once and returns its
result.) -/
def verify (keys : KeyStore) (signed : SignedObject) (key : Option String) : VerifyResult :=
  match signed.protEnc with
  | .bad m => .err m
  | .good h =>
    match resolvedKid key h with
    | none => .err "no key found"
    | some kid =>
      if kid.data.isEmpty then .err "kid not found"
      else
        match storeGet keys kid with
        | none => .err ("Key " ++ kid ++ " not found")
        | some kp =>
          match kp.publicKey with
          | none => .err ("Key " ++ kid ++ " not found")
          | some pub =>
            match signed.signature with
            | .valid skh hdr msg =>
              if skh == pub && hdr == h && msg == stringify signed.payload &&
                 algOk kp.alg h.alg
              then .ok (sortJson signed.payload)
              else .err "signature verification failed"
            | .garbage _ => .err "signature verification failed"

end JsonSignature

/-! ## Token (encryption) engine (`src/tokenCrypto.ts`) -/

/-- The `compress` member of `EncryptionOptions`:
`boolean | CompressionMethod | undefined`. -/
inductive CompressSetting where
  | flag (b : Bool) : CompressSetting
  | method (m : CompressionMethod) : CompressSetting
deriving DecidableEq

/-- `EncryptionOptions` from `tokenCrypto.ts`.  `expirationTime` is a
duration (the source's `'2h'`-style string) in jose clock units. -/
structure EncryptionOptions where
  audience : Option String := none
  expirationTime : Option Int := none
  issuer : Option String := none
  compress : Option CompressSetting := none

namespace TokenCrypto

/-- `generateKeyPairForEncryption` (`tokenCrypto.ts` lines 48-64). -/
def generateKeyPairForEncryption (w : World) (alg : String) : String × World :=
  let key := keyName w.counter
  (key,
   { w with
     keys := (key, { publicKey := some w.counter, privateKey := some w.counter,
                     alg := some alg }) :: w.keys
     counter := w.counter + 1 })

/-- The compression method resolved by `encryptToken` (`tokenCrypto.ts`
lines 126-132): a string setting is used as-is, `true` and `undefined`
default to brotli. -/
def resolveMethod : Option CompressSetting → CompressionMethod
  | some (.method m) => m
  | _ => .brotli

/-- The `zip` protected-header value chosen for a compression method
(`tokenCrypto.ts` lines 137-150): gzip uses the standard `DEF`, brotli
the custom `BR`, anything else falls back to `DEF`. -/
def zipOf : CompressionMethod → String
  | .gzip => "DEF"
  | .brotli => "BR"
  | .nocomp => "DEF"

/-- The `_compression` tag recorded in the `CompressedPayloadMarker`
(`tokenCrypto.ts` line 167): the *requested* method, with brotli
abbreviated to `br`. -/
def tagOf : CompressionMethod → String
  | .brotli => "br"
  | .gzip => "gzip"
  | .nocomp => "nocomp"

/-- The `CompressionOptions` passed to the compression utility
(`tokenCrypto.ts` lines 156-161). -/
def compressCallOptions (m : CompressionMethod) : CompressionOptions :=
  { method := some m
    mode := some 1
    quality := some (if m = .brotli then 4 else 6)
    lgwin := some 22 }

/-- The `CompressedPayloadMarker` object substituted for the payload
(`tokenCrypto.ts` lines 164-168); base64 transport is the identity in
the byte model. -/
def markerOf (compressed : String) (originalSize : Nat) (m : CompressionMethod) :
    List (String × Json) :=
  [("_compressed", .str compressed),
   ("_originalSize", .num originalSize),
   ("_compression", .str (tagOf m))]

/-- The claims jose's `EncryptJWT` adds to the processed payload
(`tokenCrypto.ts` lines 198-210): `setIssuedAt`, `setJti`,
`setExpirationTime` (default two hours), then audience and issuer when
supplied.  Spread semantics: an existing field is overwritten in
place, a new one appended. -/
def injectClaims (now : Int) (cnt : Nat) (opts : EncryptionOptions)
    (p : List (String × Json)) : List (String × Json) :=
  let p := setField p "iat" (.num now)
  let p := setField p "jti" (.str (keyName cnt))
  let p := setField p "exp" (.num (now + opts.expirationTime.getD 7200))
  let p := match opts.audience with
    | some a => setField p "aud" (.str a)
    | none => p
  match opts.issuer with
  | some i => setField p "iss" (.str i)
  | none => p

/-- `encryptToken` (`tokenCrypto.ts` lines 102-223).  Fails only when
no public key exists under `keyId`.  When compression is not disabled,
the plaintext is `JSON.stringify`-serialized and compressed, and the
`CompressedPayloadMarker` replaces the payload only when the
compressed form is strictly smaller; the `zip` header is dropped
otherwise.  (`compress` is total, so the source's
`catch (compressionError)` branch cannot fire; a codec failure
surfaces as `compress` returning the input unchanged, which is never
strictly smaller.)  Returns the fresh compact JWE string and the
world extended with its ciphertext. -/
def encryptToken (rt : Runtime) (w : World) (keyId : String)
    (payload : List (String × Json)) (options : EncryptionOptions) :
    Except String (String × World) :=
  match storeGet w.keys keyId with
  | none => .error ("Encryption key " ++ keyId ++ " not found")
  | some kp =>
    match kp.publicKey with
    | none => .error ("Encryption key " ++ keyId ++ " not found")
    | some pub =>
      let attempt : Bool := options.compress != some (.flag false) &&
                            options.compress != some (.method .nocomp)
      let cm := resolveMethod options.compress
      let payloadString := serializeStr (.obj payload)
      let compressed := compress rt payloadString (compressCallOptions cm)
      let useMarker : Bool := attempt && decide (compressed.length < payloadString.length)
      let processedPayload :=
        if useMarker then markerOf compressed payloadString.length cm else payload
      let zip := if useMarker then some (zipOf cm) else none
      let header : JweHeader :=
        { alg := kp.alg.getD "RSA-OAEP-256", enc := "A256GCM", kid := keyId, zip := zip }
      let claims := injectClaims w.now w.counter options processedPayload
      let tok := tokName (w.counter + 1)
      .ok (tok,
        { w with
          ciphertexts := (tok, { keyHandle := pub, header := header, claims := claims })
            :: w.ciphertexts
          counter := w.counter + 2 })

/-- jose's `jwtDecrypt` expiry validation: throws `JWTExpired` when an
`exp` claim is not a future instant (a non-numeric `exp` is likewise
rejected). -/
def expOk (now : Int) (claims : List (String × Json)) : Bool :=
  match jGet claims "exp" with
  | none => true
  | some (.num e) => decide (now < e)
  | some _ => false

/-- The decompression method selected from the recorded
`_compression` tag (`tokenCrypto.ts` lines 278-280). -/
def methodOfTag (tag : String) : CompressionMethod :=
  if tag = "br" then .brotli else if tag = "gzip" then .gzip else .nocomp

/-- `decryptToken` (`tokenCrypto.ts` lines 225-311).  The token
argument is `string | undefined` (`undefined` reaches it when
`verifyThenDecrypt` feeds it the `encrypted` member of a verify
error).  Fails when no private key exists under `keyId`, and with
`Token decryption failed: ...` on any authentication/format failure.
After decryption, a payload carrying truthy `_compressed` and
`_compression` members is decompressed with the recorded codec and
re-parsed (`JSON.parse`), and that parse result is returned;
otherwise the decrypted claims are returned as-is.  (The source's
`if (!decompressed)` guard cannot fire: `decompress` always returns a
`Uint8Array`, which is truthy.) -/
def decryptToken (rt : Runtime) (w : World) (keyId : String)
    (token : Option Json) : Except String Json :=
  match storeGet w.keys keyId with
  | none => .error ("Decryption key " ++ keyId ++ " not found")
  | some kp =>
    match kp.privateKey with
    | none => .error ("Decryption key " ++ keyId ++ " not found")
    | some sk =>
      match token with
      | some (.str s) =>
        match tokGet w.ciphertexts s with
        | none => .error "Token decryption failed: decryption operation failed"
        | some td =>
          if td.keyHandle == sk then
            if expOk w.now td.claims then
              if jsTruthyOpt (jGet td.claims "_compressed") &&
                 jsTruthyOpt (jGet td.claims "_compression") then
                match jGet td.claims "_compressed" with
                | some (.str c) =>
                  let tag := match jGet td.claims "_compression" with
                    | some (.str t) => t
                    | _ => ""
                  let decompressed := decompress rt c (some (methodOfTag tag))
                  match rt.jsonParse decompressed with
                  | some orig => .ok orig
                  | none => .error "Token decryption failed: unexpected token in JSON"
                | _ => .error "Token decryption failed: invalid base64 input"
              else .ok (.obj td.claims)
            else .error "Token decryption failed: \"exp\" claim timestamp check failed"
          else .error "Token decryption failed: decryption operation failed"
      | _ => .error "Token decryption failed: Invalid Compact JWE"

end TokenCrypto

/-! ## Composition layer (`src/cloudlessCrypto.ts`) -/

namespace CloudlessCrypto

/-- `encryptThenSign` (`cloudlessCrypto.ts` lines 93-125): hash the
canonical serialization of the exact input payload, encrypt the
payload (injecting JWT claims), build the
`{encrypted, payloadHash, timestamp, version: 1}` envelope — no
plaintext — and sign it. -/
def encryptThenSign (rt : Runtime) (w : World) (encryptionKey signingKey : String)
    (payload : List (String × Json)) (options : EncryptionOptions) :
    Except String (SignedObject × World) :=
  let payloadString := stringify (.obj payload)
  let payloadHash := rt.sha256 payloadString
  match TokenCrypto.encryptToken rt w encryptionKey payload options with
  | .error e => .error e
  | .ok (encrypted, w') =>
    let signaturePayload : Json := .obj
      [("encrypted", .str encrypted),
       ("payloadHash", .str payloadHash),
       ("timestamp", .num w.now),
       ("version", .num 1)]
    match JsonSignature.sign w'.keys signingKey signaturePayload with
    | .error e => .error e
    | .ok signed => .ok (signed, w')

/-- `verifyThenDecrypt` (`cloudlessCrypto.ts` lines 127-166).  Verify
the signature, then decrypt `verified.encrypted` (note: a verify
*error object* is not checked — its `encrypted` member is `undefined`
and is passed straight to `decryptToken`), strip the seven standard
claims, re-hash with `fast-json-stable-stringify` + SHA-256, and fail
with the hash-mismatch error unless the digest equals the envelope's
`payloadHash` (strict `!==`, so a missing or non-string `payloadHash`
always mismatches).  Returns the decrypted claims object. -/
def verifyThenDecrypt (rt : Runtime) (w : World) (signingKey encryptionKey : String)
    (signedToken : SignedObject) : Except String Json :=
  let verified := (JsonSignature.verify w.keys signedToken (some signingKey)).toJson
  match TokenCrypto.decryptToken rt w encryptionKey (getField verified "encrypted") with
  | .error e => .error e
  | .ok decrypted =>
    let reconstructedString := stringify (stripClaims decrypted)
    let actualHash := rt.sha256 reconstructedString
    let hashOk : Bool := match getField verified "payloadHash" with
      | some (.str h) => actualHash == h
      | _ => false
    if hashOk then .ok decrypted
    else .error "Payload hash mismatch - data integrity violation"

end CloudlessCrypto

/-! ## Concrete runtime instantiations

The `Runtime` capabilities stand for external collaborators (spec §1);
for witnesses and counterexamples they are instantiated with simple
concrete models: a run-length codec (a genuine, invertible compressor
that shrinks repetitive inputs) framed with the real gzip magic bytes
resp. a brotli tag, an injective hash, and a finite-table `JSON.parse`
correct on the strings a scenario actually parses. -/

/-- Run-length encoding worker: `c` is the current run character, `n`
its count so far (capped so it fits one character). -/
def rleAux : Char → Nat → List Char → List Char
  | c, n, [] => [Char.ofNat n, c]
  | c, n, d :: rest =>
    if d = c ∧ n < 100 then rleAux c (n + 1) rest
    else Char.ofNat n :: c :: rleAux d 1 rest

/-- Run-length encoding: pairs of (count character, data character). -/
def rleEncode : List Char → List Char
  | [] => []
  | c :: rest => rleAux c 1 rest

/-- Run-length decoding; fails on odd-length or zero-count input. -/
def rleDecode : List Char → Option (List Char)
  | [] => some []
  | [_] => none
  | n :: c :: rest =>
    if n.toNat = 0 then none
    else (rleDecode rest).map (List.replicate n.toNat c ++ ·)

/-- Model gzip compressor: real gzip magic bytes, then RLE. -/
def modelGzip (s : String) : String :=
  String.mk (Char.ofNat 0x1f :: Char.ofNat 0x8b :: rleEncode s.data)

/-- Model gzip decompressor: inverts `modelGzip`, failing on inputs
without the magic framing. -/
def modelGunzip (s : String) : Option String :=
  match s.data with
  | a :: b :: rest =>
    if a = Char.ofNat 0x1f ∧ b = Char.ofNat 0x8b then (rleDecode rest).map String.mk
    else none
  | _ => none

/-- Model brotli compressor: a `B` tag, then RLE. -/
def modelBrotli (s : String) : String :=
  String.mk ('B' :: rleEncode s.data)

/-- Model brotli decompressor: inverts `modelBrotli`. -/
def modelBrotliD (s : String) : Option String :=
  match s.data with
  | 'B' :: rest => (rleDecode rest).map String.mk
  | _ => none

/-- Model `crypto.createHash('sha256').digest('hex')`: an injective
digest function. -/
def modelSha256 (s : String) : String := "#" ++ s

/-- Finite-table model of `JSON.parse`, correct on the strings a
concrete scenario parses and failing (throwing) elsewhere. -/
def tableParse (tbl : List (String × Json)) : String → Option Json :=
  fun s => jGet tbl s

/-- A Node.js runtime: node brotli and zlib available, no browser. -/
def nodeRt (tbl : List (String × Json)) : Runtime :=
  { isNode := true, isBrowser := false, wasmEnabled := false
    nodeBrotliCompress := fun s _ => some (modelBrotli s)
    nodeBrotliDecompress := modelBrotliD
    nodeGzipCompress := fun s _ => some (modelGzip s)
    nodeGzipDecompress := modelGunzip
    browserBrotliCompress := fun _ _ => none
    browserBrotliDecompress := fun _ => none
    browserGzipCompress := fun _ => none
    browserGzipDecompress := fun _ => none
    sha256 := modelSha256
    jsonParse := tableParse tbl }

/-- A browser runtime with WASM not opted in: `CompressionStream` gzip
available, brotli unavailable. -/
def browserRt (tbl : List (String × Json)) : Runtime :=
  { isNode := false, isBrowser := true, wasmEnabled := false
    nodeBrotliCompress := fun _ _ => none
    nodeBrotliDecompress := fun _ => none
    nodeGzipCompress := fun _ _ => none
    nodeGzipDecompress := fun _ => none
    browserBrotliCompress := fun _ _ => none
    browserBrotliDecompress := fun _ => none
    browserGzipCompress := fun s => some (modelGzip s)
    browserGzipDecompress := modelGunzip
    sha256 := modelSha256
    jsonParse := tableParse tbl }

/-! ## C10 — `compress` totality and fallback behavior -/

/-- C10 counterexample: in a browser runtime with WASM not enabled
(so the selected brotli codec is unavailable), `compress` with method
`brotli` does *not* return the original input bytes unchanged — it
silently returns the gzip codec's output (`compression.ts` lines
277-279), refuting the claimed "original input bytes are returned
unchanged" on this path. -/
theorem compress_browser_fallback_not_identity :
    compress (browserRt []) "aaaa" { method := some .brotli } ≠ "aaaa" ∧
    (browserRt []).wasmEnabled = false ∧
    compress (browserRt []) "aaaa" { method := some .brotli } = modelGzip "aaaa" := by
  refine ⟨by decide, rfl, rfl⟩

/-- C10 (amended): `compress` is total — it never raises — and with
method `none` returns the input unchanged; when the selected codec is
unavailable or fails it returns the original input unchanged on every
path *except* the browser brotli path, which first falls back to the
gzip codec (and only returns the input when that also fails); outside
both environments the input is returned unchanged. -/
theorem compress_total_fallback (rt : Runtime) (d : String) (o : CompressionOptions) :
    (o.method = some .nocomp → compress rt d o = d) ∧
    (rt.isNode = true → o.method.getD .brotli = .brotli →
      rt.nodeBrotliCompress d o = none → compress rt d o = d) ∧
    (rt.isNode = true → o.method.getD .brotli = .gzip →
      rt.nodeGzipCompress d o = none → compress rt d o = d) ∧
    (rt.isNode = false → rt.isBrowser = true → o.method.getD .brotli = .brotli →
      rt.wasmEnabled = false → compress rt d o = (rt.browserGzipCompress d).getD d) ∧
    (rt.isNode = false → rt.isBrowser = true → o.method.getD .brotli = .brotli →
      rt.wasmEnabled = true → rt.browserBrotliCompress d o = none →
      compress rt d o = (rt.browserGzipCompress d).getD d) ∧
    (rt.isNode = false → rt.isBrowser = true → o.method.getD .brotli = .gzip →
      rt.browserGzipCompress d = none → compress rt d o = d) ∧
    (rt.isNode = false → rt.isBrowser = false → compress rt d o = d) := by
  unfold compress
  refine ⟨?_, ?_, ?_, ?_, ?_, ?_, ?_⟩ <;> intro h1
  · simp [h1]
  all_goals intro h2
  · intro h3
    simp only [h1, h2, if_true]
    have : o.method.getD .brotli ≠ .nocomp := by rw [h2]; simp
    simp [this, h2, h3]
  · intro h3
    have : o.method.getD .brotli ≠ .nocomp := by rw [h2]; simp
    simp [h1, this, h2, h3]
  · intro h3 h4
    have : o.method.getD .brotli ≠ .nocomp := by rw [h3]; simp
    simp only [h1, h2, this, if_false, if_true, Bool.false_eq_true, h3, h4]
    cases rt.browserGzipCompress d <;> simp
  · intro h3 h4 h5
    have : o.method.getD .brotli ≠ .nocomp := by rw [h3]; simp
    simp only [h1, h2, this, if_false, if_true, Bool.false_eq_true, h3, h4, h5]
    cases rt.browserGzipCompress d <;> simp
  · intro h3 h4
    have hm : o.method.getD .brotli ≠ .nocomp := by rw [h3]; simp
    simp [h1, h2, hm, h3, h4]
  · simp only [h1, h2, Bool.false_eq_true, if_false]
    split <;> rfl

/-- Witness for `compress_total_fallback` at a concrete browser
runtime and input: the brotli request with WASM disabled yields the
gzip fallback result. -/
theorem compress_total_fallback_witness :
    compress (browserRt []) "aa" { method := some .brotli } =
      ((browserRt []).browserGzipCompress "aa").getD "aa" :=
  (compress_total_fallback (browserRt []) "aa" { method := some .brotli }).2.2.2.1
    rfl rfl rfl rfl

/-! ## C9 — `decompress` on malformed input -/

/-- C9 counterexample: on the malformed input `"!!"` (no gzip magic,
so brotli is the auto-detected guess) the selected brotli codec fails,
yet `decompress` returns the input bytes unchanged — no decompression
failure is surfaced to the caller (`compression.ts` lines 348-354
"Decompression failed, returning data as-is"). -/
theorem decompress_malformed_silent :
    (nodeRt []).nodeBrotliDecompress "!!" = none ∧
    hasGzipMagic "!!" = false ∧
    decompress (nodeRt []) "!!" none = "!!" := by
  refine ⟨rfl, rfl, rfl⟩

/-- C9 (amended): `decompress` never raises; whenever the selected or
auto-detected codec fails on the input (including every malformed
input), it returns the input bytes unchanged — corruption surfaces
only downstream (e.g. `decryptToken`'s `JSON.parse`), not as a
decompression failure. -/
theorem decompress_malformed_returns_input (rt : Runtime) (d : String) :
    (rt.isNode = true → hasGzipMagic d = false → rt.nodeBrotliDecompress d = none →
      decompress rt d none = d) ∧
    (rt.isNode = true → hasGzipMagic d = true → rt.nodeGzipDecompress d = none →
      decompress rt d none = d) ∧
    (rt.isNode = false → rt.isBrowser = true → rt.wasmEnabled = false →
      rt.browserGzipDecompress d = none → decompress rt d none = d) ∧
    (rt.isNode = false → rt.isBrowser = true → rt.wasmEnabled = true →
      rt.browserBrotliDecompress d = none → rt.browserGzipDecompress d = none →
      decompress rt d none = d) ∧
    (rt.isNode = false → rt.isBrowser = false → decompress rt d none = d) := by
  unfold decompress
  refine ⟨?_, ?_, ?_, ?_, ?_⟩ <;> intro h1 h2
  · intro h3; simp [h1, h2, h3]
  · intro h3; simp [h1, h2, h3]
  · intro h3 h4
    simp only [h1, h2, h3]
    cases hm : hasGzipMagic d <;> simp [h4]
  · intro h3 h4 h5
    simp only [h1, h2, h3]
    cases hm : hasGzipMagic d <;> simp [h4, h5]
  · simp only [h1, h2]
    cases hm : hasGzipMagic d <;> simp

/-- Witness for `decompress_malformed_returns_input`: a Node runtime
and a gzip-framed input whose RLE body is corrupt, so the gzip codec
itself fails and the input comes back unchanged. -/
theorem decompress_malformed_returns_input_witness :
    hasGzipMagic (String.mk [Char.ofNat 0x1f, Char.ofNat 0x8b, 'x']) = true ∧
    decompress (nodeRt []) (String.mk [Char.ofNat 0x1f, Char.ofNat 0x8b, 'x']) none =
      String.mk [Char.ofNat 0x1f, Char.ofNat 0x8b, 'x'] :=
  ⟨rfl, (decompress_malformed_returns_input (nodeRt [])
    (String.mk [Char.ofNat 0x1f, Char.ofNat 0x8b, 'x'])).2.1 rfl rfl rfl⟩

/-! ## C4 — requested vs. actual compression codec -/

/-- An encryption key pair record under handle 1. -/
def encKeyPair : KeyPair :=
  { publicKey := some 1, privateKey := some 1, alg := some "RSA-OAEP-256" }

/-- A signing key pair record under handle 0. -/
def sigKeyPair : KeyPair :=
  { publicKey := some 0, privateKey := some 0, alg := some "PS256" }

/-- A highly compressible payload (its serialization shrinks under the
run-length model codec). -/
def repPayload : List (String × Json) :=
  [("a", .str "aaaaaaaaaaaaaaaaaaaaaaaaaaaaaaaaaaaaaaaa")]

/-- World holding only the encryption key pair. -/
def encWorld : World :=
  { keys := [("ek", encKeyPair)], ciphertexts := [], counter := 0, now := 0 }

/-- The ciphertext record stored by a successful `encryptToken` call
(the token data its fresh compact string resolves to). -/
def storedToken : Except String (String × World) → Option TokenData
  | .ok (tok, w') => tokGet w'.ciphertexts tok
  | .error _ => none

/-- The world after a successful `encryptToken` call. -/
def worldAfter (w : World) : Except String (String × World) → World
  | .ok (_, w') => w'
  | .error _ => w

/-- C4 failing input, evaluated: in a browser runtime with WASM not
opted in, a brotli-requested compression of a compressible payload is
actually performed by the gzip codec (`compress` silently falls back,
`compression.ts` lines 277-279), yet the persisted
`CompressedPayloadMarker._compression` tag is `"br"` and the protected
`zip` header is `"BR"` (`tokenCrypto.ts` lines 144, 167 record the
*requested* method) — the stored compression tag does not name the
codec that actually ran. -/
theorem encryptToken_records_requested_codec :
    (storedToken (TokenCrypto.encryptToken (browserRt []) encWorld "ek" repPayload
        { compress := some (.method .brotli) })).map
      (fun td => (jGet td.claims "_compression", td.header.zip,
                  jGet td.claims "_compressed")) =
      some (some (.str "br"), some "BR",
            some (.str (modelGzip (serializeStr (.obj repPayload))))) ∧
    (browserRt []).wasmEnabled = false ∧
    (∀ s o, (browserRt []).browserBrotliCompress s o = none) := by
  refine ⟨by decide, rfl, fun _ _ => rfl⟩

/-! ## C5 — compressed-path decryption result -/

/-- Parse table for the round trips over `repPayload`. -/
def repParseTbl : List (String × Json) :=
  [(serializeStr (.obj repPayload), .obj repPayload)]

/-- C5 counterexample: a full encrypt/decrypt round trip in a Node
runtime with default options (compression on, payload compressible).
The ciphertext's claims carry the injected `iat`/`exp`/`jti`, but
`decryptToken` returns only the re-parsed original payload
(`tokenCrypto.ts` line 301 returns `originalPayload`): the injected
standard claims are *not* merged into the result, refuting the claim
that the original payload is returned "merged with the injected
standard claims". -/
theorem decryptToken_drops_injected_claims :
    (storedToken (TokenCrypto.encryptToken (nodeRt repParseTbl) encWorld "ek"
        repPayload {})).map
      (fun td => (jGet td.claims "iat", jGet td.claims "jti")) =
      some (some (.num 0), some (.str (keyName 0))) ∧
    (TokenCrypto.decryptToken (nodeRt repParseTbl)
        (worldAfter encWorld
          (TokenCrypto.encryptToken (nodeRt repParseTbl) encWorld "ek" repPayload {}))
        "ek" (some (.str (tokName 1)))).toOption = some (.obj repPayload) ∧
    getField (.obj repPayload) "iat" = none ∧
    getField (.obj repPayload) "jti" = none := by
  refine ⟨by decide, by decide, rfl, rfl⟩

theorem str_data_isEmpty_iff (s : String) : s.data.isEmpty = true ↔ s = "" := by
  cases s with
  | mk l =>
    cases l with
    | nil => simp
    | cons c cs => simp [List.isEmpty, String.ext_iff]

/-- C5 (amended): after successful decryption, a payload carrying the
`CompressedPayloadMarker` shape (truthy `_compressed` and
`_compression`) is decompressed with the recorded codec and the
`JSON.parse` of the decompressed bytes is returned as-is — the
injected standard claims present in the decrypted claims object are
not merged into it; when the marker shape is absent, the decrypted
claims are returned as-is. -/
theorem decryptToken_marker_paths (rt : Runtime) (w : World) (keyId : String)
    (kp : KeyPair) (sk : Nat) (td : TokenData) (s : String)
    (hk : storeGet w.keys keyId = some kp) (hsk : kp.privateKey = some sk)
    (ht : tokGet w.ciphertexts s = some td) (hh : td.keyHandle = sk)
    (he : TokenCrypto.expOk w.now td.claims = true) :
    (∀ c tag orig, jGet td.claims "_compressed" = some (.str c) → c ≠ "" →
      jGet td.claims "_compression" = some (.str tag) → tag ≠ "" →
      rt.jsonParse (decompress rt c (some (TokenCrypto.methodOfTag tag))) = some orig →
      TokenCrypto.decryptToken rt w keyId (some (.str s)) = .ok orig) ∧
    ((jsTruthyOpt (jGet td.claims "_compressed") = false ∨
      jsTruthyOpt (jGet td.claims "_compression") = false) →
      TokenCrypto.decryptToken rt w keyId (some (.str s)) = .ok (.obj td.claims)) := by
  constructor
  · intro c tag orig hc hcne htag htagne hp
    have hce : c.data.isEmpty = false := by
      cases hb : c.data.isEmpty
      · rfl
      · exact absurd ((str_data_isEmpty_iff c).mp hb) hcne
    have hte : tag.data.isEmpty = false := by
      cases hb : tag.data.isEmpty
      · rfl
      · exact absurd ((str_data_isEmpty_iff tag).mp hb) htagne
    simp [TokenCrypto.decryptToken, hk, hsk, ht, hh, he, hc, htag,
          jsTruthyOpt, jsTruthy, hce, hte, hp]
  · intro hfalse
    have hcond : (jsTruthyOpt (jGet td.claims "_compressed") &&
        jsTruthyOpt (jGet td.claims "_compression")) = false := by
      rcases hfalse with h | h <;> simp [h]
    simp [TokenCrypto.decryptToken, hk, hsk, ht, hh, he, hcond]

/-- Marker-shaped ciphertext record over `repPayload`'s gzip model
compression, used by the `decryptToken_marker_paths` witness. -/
def markerTd : TokenData :=
  { keyHandle := 1
    header := { alg := "RSA-OAEP-256", enc := "A256GCM", kid := "ek", zip := some "DEF" }
    claims := [("_compressed", .str (modelGzip (serializeStr (.obj repPayload)))),
               ("_originalSize", .num 48),
               ("_compression", .str "gzip"),
               ("exp", .num 100)] }

/-- World holding the encryption key and the marker-shaped ciphertext. -/
def markerWorld : World :=
  { keys := [("ek", encKeyPair)], ciphertexts := [("t", markerTd)], counter := 0, now := 0 }

/-- Witness for `decryptToken_marker_paths`: a marker-shaped ciphertext
built over `repPayload`'s gzip model compression decrypts to exactly
the original payload. -/
theorem decryptToken_marker_paths_witness :
    TokenCrypto.decryptToken (nodeRt repParseTbl) markerWorld
      "ek" (some (.str "t")) = .ok (.obj repPayload) := by
  exact (decryptToken_marker_paths (nodeRt repParseTbl) markerWorld "ek" encKeyPair 1
    markerTd "t" rfl rfl rfl rfl (by decide)).1
    (modelGzip (serializeStr (.obj repPayload))) "gzip" (.obj repPayload)
    rfl (by decide) rfl (by decide) (by decide)

/-! ## C2 — ordering of signature check and decryption -/

/-- World holding a signing and an encryption key pair. -/
def c2World : World :=
  { keys := [("sk", sigKeyPair), ("ek", encKeyPair)], ciphertexts := [], counter := 2, now := 0 }

/-- A concrete encrypt-then-sign run (compression disabled). -/
def c2Run : Except String (SignedObject × World) :=
  CloudlessCrypto.encryptThenSign (nodeRt []) c2World "ek" "sk" [("test", .str "data")]
    { compress := some (.flag false) }

/-- Corrupt the signature of an envelope (the
`{...encrypted, signature: 'invalid-signature'}` of the repository's
tests). -/
def corruptSig (s : SignedObject) : SignedObject :=
  { s with signature := .garbage "invalid-signature" }

/-- The error message of a failed call, `none` on success. -/
def exceptErr : Except String Json → Option String
  | .error e => some e
  | .ok _ => none

/-- C2 failing input, evaluated: for an encrypt-then-sign envelope
whose signature is corrupted, `verify` returns the soft error
`{error: 'signature verification failed'}`, but `verifyThenDecrypt`
does not check it (`cloudlessCrypto.ts` line 133 casts the result and
line 141 reads `.encrypted`, which is `undefined`): `decryptToken` is
still invoked and the call fails with the *decryption-stage* error,
not because of the signature check. -/
theorem verifyThenDecrypt_decrypts_after_bad_signature :
    (c2Run.toOption.map fun p =>
        (JsonSignature.verify p.2.keys (corruptSig p.1) (some "sk"),
         exceptErr (CloudlessCrypto.verifyThenDecrypt (nodeRt []) p.2 "sk" "ek"
           (corruptSig p.1)))) =
      some (.err "signature verification failed",
            some "Token decryption failed: Invalid Compact JWE") := by
  decide

/-! ## C3 — hash re-verification in `verifyThenDecrypt` -/

theorem jGet_filter_key (p : String → Bool) (fs : List (String × Json)) (k : String) :
    jGet (fs.filter fun f => p f.1) k = if p k then jGet fs k else none := by
  induction fs with
  | nil => cases hp : p k <;> simp [jGet, hp]
  | cons f fs ih =>
    rcases f with ⟨k', v⟩
    cases hp' : p k' <;> cases hp : p k
    · rw [List.filter_cons_of_neg (by simp [hp']), ih]
      simp [hp]
    · have hne : k' ≠ k := fun h => by rw [h, hp] at hp'; exact Bool.noConfusion hp'
      rw [List.filter_cons_of_neg (by simp [hp']), ih]
      simp [hp, jGet, hne]
    · have hne : k' ≠ k := fun h => by rw [h, hp] at hp'; exact Bool.noConfusion hp'
      rw [List.filter_cons_of_pos (by simp [hp'])]
      simp [jGet, hne, ih, hp]
    · rw [List.filter_cons_of_pos (by simp [hp'])]
      simp [jGet, ih, hp]

/-- C3: after a successful signature verification and decryption,
exactly the seven standard claim fields are removed from the decrypted
result (first conjunct), and the call returns normally when the
SHA-256 of the canonical re-serialization equals the envelope's
`payloadHash`, and raises the `PayloadHashMismatch` failure exactly
when it differs (including a missing or non-string `payloadHash`,
which the strict `!==` can never equal). -/
theorem verifyThenDecrypt_hash_gate (rt : Runtime) (w : World) (skid ekid : String)
    (token : SignedObject) (env e : Json) (dfs : List (String × Json))
    (hv : JsonSignature.verify w.keys token (some skid) = .ok env)
    (hef : getField env "encrypted" = some e)
    (hd : TokenCrypto.decryptToken rt w ekid (some e) = .ok (.obj dfs)) :
    (∀ k, getField (stripClaims (.obj dfs)) k =
        if claimNames.contains k then none else getField (.obj dfs) k) ∧
    (getField env "payloadHash" =
        some (.str (rt.sha256 (stringify (stripClaims (.obj dfs))))) →
      CloudlessCrypto.verifyThenDecrypt rt w skid ekid token = .ok (.obj dfs)) ∧
    ((∀ h, getField env "payloadHash" = some (.str h) →
        h ≠ rt.sha256 (stringify (stripClaims (.obj dfs)))) →
      CloudlessCrypto.verifyThenDecrypt rt w skid ekid token =
        .error "Payload hash mismatch - data integrity violation") := by
  refine ⟨fun k => ?_, ?_, ?_⟩
  · have h := jGet_filter_key (fun s => !(claimNames.contains s)) dfs k
    cases hk : claimNames.contains k
    · have hk' : ¬(k ∈ claimNames) := by simpa using hk
      simp [hk'] at h
      simpa [stripClaims, getField, jsSpread, hk, hk'] using h
    · have hk' : k ∈ claimNames := by simpa using hk
      simp [hk'] at h
      simpa [stripClaims, getField, jsSpread, hk, hk'] using h
  · intro hph
    simp [CloudlessCrypto.verifyThenDecrypt, hv, VerifyResult.toJson, hef, hd, hph]
  · intro hph
    rcases hcase : getField env "payloadHash" with _ | j
    · simp [CloudlessCrypto.verifyThenDecrypt, hv, VerifyResult.toJson, hef, hd, hcase]
    · cases j with
      | str h =>
        have hne : (rt.sha256 (stringify (stripClaims (.obj dfs))) == h) = false := by
          have := hph h hcase
          simp only [beq_eq_false_iff_ne, ne_eq]
          exact fun he => this he.symm
        simp [CloudlessCrypto.verifyThenDecrypt, hv, VerifyResult.toJson, hef, hd, hcase, hne]
      | null =>
        simp [CloudlessCrypto.verifyThenDecrypt, hv, VerifyResult.toJson, hef, hd, hcase]
      | bool b =>
        simp [CloudlessCrypto.verifyThenDecrypt, hv, VerifyResult.toJson, hef, hd, hcase]
      | num n =>
        simp [CloudlessCrypto.verifyThenDecrypt, hv, VerifyResult.toJson, hef, hd, hcase]
      | arr xs =>
        simp [CloudlessCrypto.verifyThenDecrypt, hv, VerifyResult.toJson, hef, hd, hcase]
      | obj fs =>
        simp [CloudlessCrypto.verifyThenDecrypt, hv, VerifyResult.toJson, hef, hd, hcase]

/-- Decrypted claims for the C3 witness scenario. -/
def c3Claims : List (String × Json) :=
  [("a", .num 1), ("iat", .num 0), ("exp", .num 100), ("jti", .str "j")]

/-- Ciphertext record for the C3 witness. -/
def c3Td : TokenData :=
  { keyHandle := 1
    header := { alg := "RSA-OAEP-256", enc := "A256GCM", kid := "ek" }
    claims := c3Claims }

/-- World for the C3 witness. -/
def c3World : World :=
  { keys := [("sk", sigKeyPair), ("ek", encKeyPair)]
    ciphertexts := [("t", c3Td)], counter := 2, now := 0 }

/-- The signed envelope of the C3 witness: a well-formed
encrypt-then-sign envelope whose `payloadHash` matches the stripped
decryption result. -/
def c3Envelope : Json :=
  .obj [("encrypted", .str "t"),
        ("payloadHash", .str (modelSha256 (stringify (.obj [("a", .num 1)])))),
        ("timestamp", .num 0),
        ("version", .num 1)]

/-- The signed token of the C3 witness. -/
def c3Token : SignedObject :=
  { signature := .valid 0 { alg := some "PS256", kid := some "sk" } (stringify c3Envelope)
    protEnc := .good { alg := some "PS256", kid := some "sk" }
    payload := c3Envelope }

/-- Witness for `verifyThenDecrypt_hash_gate`: on the concrete matching
scenario the call returns the decrypted claims. -/
theorem verifyThenDecrypt_hash_gate_witness :
    CloudlessCrypto.verifyThenDecrypt (nodeRt []) c3World "sk" "ek" c3Token =
      .ok (.obj c3Claims) :=
  (verifyThenDecrypt_hash_gate (nodeRt []) c3World "sk" "ek" c3Token
    c3Envelope (.str "t") c3Claims (by decide) (by decide) (by decide)).2.1 (by decide)

/-! ## Association-list lookup lemmas -/

theorem jGet_cons_self (k : String) (v : Json) (rest : List (String × Json)) :
    jGet ((k, v) :: rest) k = some v := by
  simp [jGet]

theorem jGet_cons_ne (k' k : String) (v : Json) (rest : List (String × Json))
    (h : k' ≠ k) : jGet ((k', v) :: rest) k = jGet rest k := by
  simp [jGet, h]

theorem storeGet_cons_self (k : String) (v : KeyPair) (rest : KeyStore) :
    storeGet ((k, v) :: rest) k = some v := by
  simp [storeGet]

theorem storeGet_cons_ne (k' k : String) (v : KeyPair) (rest : KeyStore)
    (h : k' ≠ k) : storeGet ((k', v) :: rest) k = storeGet rest k := by
  simp [storeGet, h]

theorem tokGet_cons_self (k : String) (v : TokenData) (rest : List (String × TokenData)) :
    tokGet ((k, v) :: rest) k = some v := by
  simp [tokGet]

theorem tokGet_cons_ne (k' k : String) (v : TokenData) (rest : List (String × TokenData))
    (h : k' ≠ k) : tokGet ((k', v) :: rest) k = tokGet rest k := by
  simp [tokGet, h]

/-! ## C7 — soft-failure discipline of `verify` -/

/-- C7: `verify` is a total function into tagged results — it never
throws.  For every input it returns either an `{error: ...}`-tagged
result or the deserialized payload; the error cases are exactly: a
malformed protected header (the decode error's message), no resolvable
key id (`no key found`), no public key under the resolved id
(`Key <id> not found`), and a failed cryptographic check
(`signature verification failed`), and success returns the
deserialized canonical payload and happens exactly when the signature
covers this header and these canonical payload bytes under the stored
public key with an acceptable algorithm. -/
theorem verify_soft_failure (keys : KeyStore) (signed : SignedObject) (key : Option String) :
    ((∃ m, JsonSignature.verify keys signed key = .err m) ∨
      JsonSignature.verify keys signed key = .ok (sortJson signed.payload)) ∧
    (∀ m, signed.protEnc = .bad m → JsonSignature.verify keys signed key = .err m) ∧
    (∀ h, signed.protEnc = .good h → JsonSignature.resolvedKid key h = none →
      JsonSignature.verify keys signed key = .err "no key found") ∧
    (∀ h kid, signed.protEnc = .good h → JsonSignature.resolvedKid key h = some kid →
      kid.data.isEmpty = false →
      (storeGet keys kid = none ∨
        ∃ kp, storeGet keys kid = some kp ∧ kp.publicKey = none) →
      JsonSignature.verify keys signed key = .err ("Key " ++ kid ++ " not found")) ∧
    (∀ h kid kp pub, signed.protEnc = .good h →
      JsonSignature.resolvedKid key h = some kid → kid.data.isEmpty = false →
      storeGet keys kid = some kp → kp.publicKey = some pub →
      ((JsonSignature.verify keys signed key = .ok (sortJson signed.payload) ↔
        (signed.signature = .valid pub h (stringify signed.payload) ∧
          JsonSignature.algOk kp.alg h.alg = true)) ∧
       (signed.signature ≠ .valid pub h (stringify signed.payload) ∨
          JsonSignature.algOk kp.alg h.alg = false →
        JsonSignature.verify keys signed key = .err "signature verification failed"))) := by
  refine ⟨?_, ?_, ?_, ?_, ?_⟩
  · unfold JsonSignature.verify
    rcases signed with ⟨sig, penc, payload⟩
    cases penc with
    | bad m => exact .inl ⟨m, rfl⟩
    | good h =>
      simp only
      cases JsonSignature.resolvedKid key h with
      | none => exact .inl ⟨_, rfl⟩
      | some kid =>
        simp only
        cases hke : kid.data.isEmpty
        · simp only [Bool.false_eq_true, if_false]
          cases storeGet keys kid with
          | none => exact .inl ⟨_, rfl⟩
          | some kp =>
            simp only
            cases kp.publicKey with
            | none => exact .inl ⟨_, rfl⟩
            | some pub =>
              simp only
              cases sig with
              | garbage s => exact .inl ⟨_, rfl⟩
              | valid skh hdr msg =>
                simp only
                cases hcond : (skh == pub && hdr == h &&
                    msg == stringify payload && JsonSignature.algOk kp.alg h.alg)
                · simp only [Bool.false_eq_true, if_false]
                  exact .inl ⟨_, rfl⟩
                · exact .inr (by simp)
        · simp only [if_true]
          exact .inl ⟨_, rfl⟩
  · intro m hm
    simp [JsonSignature.verify, hm]
  · intro h hh hr
    simp [JsonSignature.verify, hh, hr]
  · intro h kid hh hr hke hmiss
    rcases hmiss with hnone | ⟨kp, hkp, hpub⟩
    · simp [JsonSignature.verify, hh, hr, hke, hnone]
    · simp [JsonSignature.verify, hh, hr, hke, hkp, hpub]
  · intro h kid kp pub hh hr hke hkp hpub
    obtain ⟨sig, penc, payload⟩ := signed
    simp only at hh
    cases hh
    cases sig with
    | garbage s =>
      constructor
      · constructor
        · intro hok
          have hcontr : VerifyResult.err "signature verification failed" =
              VerifyResult.ok (sortJson payload) := by
            simpa [JsonSignature.verify, hr, hke, hkp, hpub] using hok
          exact VerifyResult.noConfusion hcontr
        · rintro ⟨hv, -⟩
          exact SigTok.noConfusion hv
      · intro hbad
        simp [JsonSignature.verify, hr, hke, hkp, hpub]
    | valid skh hdr msg =>
      have hred : JsonSignature.verify keys ⟨.valid skh hdr msg, .good h, payload⟩ key =
          if (skh == pub && hdr == h && msg == stringify payload &&
              JsonSignature.algOk kp.alg h.alg) then .ok (sortJson payload)
          else .err "signature verification failed" := by
        simp [JsonSignature.verify, hr, hke, hkp, hpub]
      rw [hred]
      cases hcond : (skh == pub && hdr == h && msg == stringify payload &&
          JsonSignature.algOk kp.alg h.alg)
      · rw [if_neg Bool.false_ne_true]
        constructor
        · constructor
          · intro hok
            exact VerifyResult.noConfusion hok
          · rintro ⟨hv, halg⟩
            obtain ⟨h1, h2, h3⟩ := SigTok.valid.inj hv
            rw [h1, h2, h3, halg] at hcond
            simp at hcond
        · intro hbad
          rfl
      · rw [if_pos rfl]
        simp only [Bool.and_eq_true, beq_iff_eq] at hcond
        obtain ⟨⟨⟨h1, h2⟩, h3⟩, h4⟩ := hcond
        constructor
        · constructor
          · intro hok2
            exact ⟨by rw [h1, h2, h3], h4⟩
          · intro hconj2
            rfl
        · intro hbad
          exfalso
          rcases hbad with hne | hfa
          · exact hne (by rw [h1, h2, h3])
          · rw [h4] at hfa
            exact Bool.noConfusion hfa

/-- A `SignedObject` with a malformed protected header. -/
def badHeaderToken : SignedObject :=
  { signature := .garbage "x", protEnc := .bad "malformed header", payload := .null }

/-- Witness for `verify_soft_failure`: a malformed protected header
yields the error-tagged result carrying the decode failure. -/
theorem verify_soft_failure_witness :
    JsonSignature.verify [] badHeaderToken none = .err "malformed header" :=
  (verify_soft_failure [] badHeaderToken none).2.1 "malformed header" rfl

/-! ## C8 — compression gating in `encryptToken` -/

/-- C8: `encryptToken` succeeds for every runtime (in particular for
every codec behavior — a compression failure is never fatal, because
`compress` is total and a failed codec returns the input unchanged,
which is never strictly smaller).  When compression is disabled
(`compress: false` or `'none'`) the payload is encrypted untouched and
no `zip` header is set; otherwise the serialized payload is
compressed, and the `CompressedPayloadMarker` (with the `zip` header)
replaces the payload exactly when the compressed form is strictly
smaller than the serialized plaintext. -/
theorem encryptToken_compression_gate (rt : Runtime) (w : World) (keyId : String)
    (payload : List (String × Json)) (opts : EncryptionOptions) (kp : KeyPair) (pub : Nat)
    (hk : storeGet w.keys keyId = some kp) (hpub : kp.publicKey = some pub) :
    ∃ w', TokenCrypto.encryptToken rt w keyId payload opts =
        .ok (tokName (w.counter + 1), w') ∧
      ∃ td, tokGet w'.ciphertexts (tokName (w.counter + 1)) = some td ∧
        (opts.compress = some (.flag false) ∨ opts.compress = some (.method .nocomp) →
          td.claims = TokenCrypto.injectClaims w.now w.counter opts payload ∧
          td.header.zip = none) ∧
        (opts.compress ≠ some (.flag false) → opts.compress ≠ some (.method .nocomp) →
          ((compress rt (serializeStr (.obj payload))
              (TokenCrypto.compressCallOptions (TokenCrypto.resolveMethod opts.compress))).length <
              (serializeStr (.obj payload)).length →
            td.claims = TokenCrypto.injectClaims w.now w.counter opts
              (TokenCrypto.markerOf
                (compress rt (serializeStr (.obj payload))
                  (TokenCrypto.compressCallOptions (TokenCrypto.resolveMethod opts.compress)))
                (serializeStr (.obj payload)).length
                (TokenCrypto.resolveMethod opts.compress)) ∧
            td.header.zip = some (TokenCrypto.zipOf (TokenCrypto.resolveMethod opts.compress))) ∧
          (¬ (compress rt (serializeStr (.obj payload))
              (TokenCrypto.compressCallOptions (TokenCrypto.resolveMethod opts.compress))).length <
              (serializeStr (.obj payload)).length →
            td.claims = TokenCrypto.injectClaims w.now w.counter opts payload ∧
            td.header.zip = none)) := by
  unfold TokenCrypto.encryptToken
  rw [hk]
  simp only [hpub]
  refine ⟨_, rfl, _, tokGet_cons_self _ _ _, ?_, ?_⟩
  · intro hoff
    have hatt : (opts.compress != some (.flag false) &&
        opts.compress != some (.method .nocomp)) = false := by
      rcases hoff with h | h <;> simp [h]
    simp [hatt]
  · intro h1 h2
    have hatt : (opts.compress != some (.flag false) &&
        opts.compress != some (.method .nocomp)) = true := by
      simp [h1, h2]
    constructor
    · intro hlt
      simp [hatt, hlt]
    · intro hlt
      simp [hatt, hlt]

/-- Witness for `encryptToken_compression_gate` at a concrete Node
runtime, key and payload. -/
theorem encryptToken_compression_gate_witness :
    ∃ w', TokenCrypto.encryptToken (nodeRt []) encWorld "ek" repPayload {} =
        .ok (tokName 1, w') ∧
      ∃ td, tokGet w'.ciphertexts (tokName 1) = some td ∧
        (({} : EncryptionOptions).compress = some (.flag false) ∨
          ({} : EncryptionOptions).compress = some (.method .nocomp) →
          td.claims = TokenCrypto.injectClaims 0 0 {} repPayload ∧
          td.header.zip = none) ∧
        (({} : EncryptionOptions).compress ≠ some (.flag false) →
          ({} : EncryptionOptions).compress ≠ some (.method .nocomp) →
          ((compress (nodeRt []) (serializeStr (.obj repPayload))
              (TokenCrypto.compressCallOptions (TokenCrypto.resolveMethod none))).length <
              (serializeStr (.obj repPayload)).length →
            td.claims = TokenCrypto.injectClaims 0 0 {}
              (TokenCrypto.markerOf
                (compress (nodeRt []) (serializeStr (.obj repPayload))
                  (TokenCrypto.compressCallOptions (TokenCrypto.resolveMethod none)))
                (serializeStr (.obj repPayload)).length
                (TokenCrypto.resolveMethod none)) ∧
            td.header.zip = some (TokenCrypto.zipOf (TokenCrypto.resolveMethod none))) ∧
          (¬ (compress (nodeRt []) (serializeStr (.obj repPayload))
              (TokenCrypto.compressCallOptions (TokenCrypto.resolveMethod none))).length <
              (serializeStr (.obj repPayload)).length →
            td.claims = TokenCrypto.injectClaims 0 0 {} repPayload ∧
            td.header.zip = none)) :=
  encryptToken_compression_gate (nodeRt []) encWorld "ek" repPayload {} encKeyPair 1
    rfl rfl

/-! ## C6 — canonicalization is key-order independent -/

theorem listLeB_refl : ∀ x : List Char, listLeB x x = true
  | [] => rfl
  | a :: as => by simp [listLeB, listLeB_refl as]

theorem keyLe_refl (a : String × Json) : keyLe a a := listLeB_refl a.1.data

/-- Two JSON values that are semantically identical up to property
insertion order: equal leaves, pointwise-equivalent arrays, and
objects whose (duplicate-free) field lists agree up to permutation,
recursively, closed under congruence and transitivity. -/
inductive JsonPermEq : Json → Json → Prop where
  | refl (v : Json) : JsonPermEq v v
  | trans : JsonPermEq a b → JsonPermEq b c → JsonPermEq a c
  | arrCons : JsonPermEq x y → JsonPermEq (.arr xs) (.arr ys) →
      JsonPermEq (.arr (x :: xs)) (.arr (y :: ys))
  | objCons (k : String) : JsonPermEq v w → JsonPermEq (.obj fs) (.obj gs) →
      JsonPermEq (.obj ((k, v) :: fs)) (.obj ((k, w) :: gs))
  | objPerm (fs gs : List (String × Json)) :
      (fs.map Prod.fst).Nodup → fs.Perm gs → JsonPermEq (.obj fs) (.obj gs)

theorem sortKids_eq_map (fs : List (String × Json)) :
    sortKids fs = fs.map (fun kv => (kv.1, sortJson kv.2)) := by
  induction fs with
  | nil => rfl
  | cons f fs ih =>
    cases f
    simp [sortKids, ih]

theorem map_fst_sortKids (fs : List (String × Json)) :
    (sortKids fs).map Prod.fst = fs.map Prod.fst := by
  induction fs with
  | nil => rfl
  | cons f fs ih =>
    cases f
    simp [sortKids, ih]

/-- Two key-sorted field lists with duplicate-free keys that are
permutations of each other are equal. -/
theorem sorted_perm_nodupkeys_eq (l₁ : List (String × Json)) :
    ∀ l₂, l₁.Perm l₂ → l₁.Sorted keyLe → l₂.Sorted keyLe →
      (l₁.map Prod.fst).Nodup → l₁ = l₂ := by
  induction l₁ with
  | nil =>
    intro l₂ hp _ _ _
    exact (hp.symm.eq_nil).symm
  | cons a t ih =>
    intro l₂ hp hs1 hs2 hnd
    rw [List.map_cons] at hnd
    have hndc := List.nodup_cons.mp hnd
    cases l₂ with
    | nil => exact absurd hp.length_eq (by simp)
    | cons b t₂ =>
      have hmem_b : b ∈ a :: t := hp.symm.subset (List.mem_cons_self b t₂)
      have hba : b = a := by
        rcases List.mem_cons.mp hmem_b with h | h
        · exact h
        · have hmem_a : a ∈ b :: t₂ := hp.subset (List.mem_cons_self a t)
          have hab : keyLe a b := (List.sorted_cons.mp hs1).1 b h
          have hba' : keyLe b a := by
            rcases List.mem_cons.mp hmem_a with h2 | h2
            · rw [h2]
              exact keyLe_refl b
            · exact (List.sorted_cons.mp hs2).1 a h2
          have hkey : a.1 = b.1 := keyLe_antisymm_key hab hba'
          exfalso
          have hmemk : b.1 ∈ t.map Prod.fst := List.mem_map_of_mem Prod.fst h
          rw [← hkey] at hmemk
          exact hndc.1 hmemk
      subst hba
      have ht : t.Perm t₂ := hp.cons_inv
      rw [ih t₂ ht (List.sorted_cons.mp hs1).2 (List.sorted_cons.mp hs2).2 hndc.2]

/-- Key-order equivalent values have identical canonical
normalizations. -/
theorem sortJson_eq_of_permEq {a b : Json} (h : JsonPermEq a b) :
    sortJson a = sortJson b := by
  induction h with
  | refl v => rfl
  | trans h1 h2 ih1 ih2 => exact ih1.trans ih2
  | arrCons hx hxs ihx ihxs =>
    simp only [sortJson, sortElems] at ihxs ⊢
    injection ihxs with h'
    rw [ihx, h']
  | objCons k hv hfs ihv ihfs =>
    simp only [sortJson] at ihfs ⊢
    injection ihfs with h'
    simp only [sortKids, List.insertionSort]
    rw [ihv, h']
  | objPerm fs gs hnd hperm =>
    simp only [sortJson]
    have hsk : (sortKids fs).Perm (sortKids gs) := by
      rw [sortKids_eq_map, sortKids_eq_map]
      exact hperm.map _
    have h1 : (List.insertionSort keyLe (sortKids fs)).Perm
        (List.insertionSort keyLe (sortKids gs)) :=
      (List.perm_insertionSort keyLe _).trans
        (hsk.trans (List.perm_insertionSort keyLe _).symm)
    have h2 : ((sortKids fs).map Prod.fst).Nodup := by
      rw [map_fst_sortKids]
      exact hnd
    have h3 : ((List.insertionSort keyLe (sortKids fs)).map Prod.fst).Nodup :=
      (((List.perm_insertionSort keyLe (sortKids fs)).map Prod.fst).nodup_iff).mpr h2
    rw [sorted_perm_nodupkeys_eq _ _ h1 (List.sorted_insertionSort keyLe _)
      (List.sorted_insertionSort keyLe _) h3]

/-- C6: for key-order equivalent payloads the canonical serialization
(`fast-json-stable-stringify`) is byte-identical, `sign` produces the
identical signature (over the identical canonical byte sequence), and
— since `verify` recomputes the canonical serialization of
`signed.payload` itself — replacing the payload of any `SignedObject`
by a key-order equivalent one never changes the verification result:
reordering or re-encoding of payload keys between signing and
verifying cannot make verification fail. -/
theorem canonicalization_key_order_independent (p₁ p₂ : Json) (hp : JsonPermEq p₁ p₂) :
    stringify p₁ = stringify p₂ ∧
    (∀ keys key, JsonSignature.sign keys key p₁ = JsonSignature.sign keys key p₂) ∧
    (∀ keys sig penc key,
      JsonSignature.verify keys ⟨sig, penc, p₁⟩ key =
        JsonSignature.verify keys ⟨sig, penc, p₂⟩ key) := by
  have hsort : sortJson p₁ = sortJson p₂ := sortJson_eq_of_permEq hp
  have hstr : stringify p₁ = stringify p₂ := by
    unfold stringify
    rw [hsort]
  refine ⟨hstr, ?_, ?_⟩
  · intro keys key
    unfold JsonSignature.sign
    rw [hstr, hsort]
  · intro keys sig penc key
    unfold JsonSignature.verify
    simp only [hstr, hsort]

/-- Inner object of the C6 witness, two key orders. -/
def innerA : Json := .obj [("x", .num 3), ("y", .num 2)]

/-- Inner object of the C6 witness, reordered. -/
def innerB : Json := .obj [("y", .num 2), ("x", .num 3)]

/-- Outer object of the C6 witness. -/
def outerA : Json := .obj [("k", innerA), ("b", .num 1)]

/-- Outer object of the C6 witness, reordered at both levels. -/
def outerB : Json := .obj [("b", .num 1), ("k", innerB)]

/-- Witness for `canonicalization_key_order_independent`: a nested
object reordered at both levels serializes to the identical canonical
bytes. -/
theorem canonicalization_key_order_independent_witness :
    stringify outerA = stringify outerB :=
  (canonicalization_key_order_independent outerA outerB
    (JsonPermEq.trans
      (JsonPermEq.objCons "k"
        (JsonPermEq.objPerm [("x", Json.num 3), ("y", Json.num 2)]
          [("y", Json.num 2), ("x", Json.num 3)]
          (by decide) (List.Perm.swap ("y", Json.num 2) ("x", Json.num 3) []))
        (JsonPermEq.refl (Json.obj [("b", Json.num 1)])))
      (JsonPermEq.objPerm [("k", innerB), ("b", Json.num 1)]
        [("b", Json.num 1), ("k", innerB)]
        (by decide) (List.Perm.swap ("b", Json.num 1) ("k", innerB) [])))).1

/-! ## C1 — the encrypt-then-sign round trip -/

theorem jGet_append_of_none_left (l₁ l₂ : List (String × Json)) (k : String)
    (h : jGet l₁ k = none) : jGet (l₁ ++ l₂) k = jGet l₂ k := by
  induction l₁ with
  | nil => rfl
  | cons f t ih =>
    cases f with
    | mk k' v =>
      by_cases hk : k' = k
      · simp [jGet, hk] at h
      · simp only [jGet, List.cons_append, if_neg hk] at h ⊢
        exact ih h

theorem jGet_append_of_none_right (l₁ l₂ : List (String × Json)) (k : String)
    (h : jGet l₂ k = none) : jGet (l₁ ++ l₂) k = jGet l₁ k := by
  induction l₁ with
  | nil => simpa using h
  | cons f t ih =>
    cases f with
    | mk k' v =>
      by_cases hk : k' = k
      · simp [jGet, hk]
      · simp only [jGet, List.cons_append, if_neg hk]
        exact ih

theorem jGet_append_left (l₁ l₂ : List (String × Json)) (k : String) (v : Json)
    (h : jGet l₁ k = some v) : jGet (l₁ ++ l₂) k = some v := by
  induction l₁ with
  | nil => simp [jGet] at h
  | cons f t ih =>
    cases f with
    | mk k' v' =>
      by_cases hk : k' = k
      · simp only [jGet, if_pos hk] at h
        simp only [jGet, List.cons_append, if_pos hk]
        exact h
      · simp only [jGet, if_neg hk] at h
        simp only [jGet, List.cons_append, if_neg hk]
        exact ih h

theorem jGet_none_of_keys (l : List (String × Json)) (k : String)
    (h : ∀ kv ∈ l, kv.1 ≠ k) : jGet l k = none := by
  induction l with
  | nil => rfl
  | cons f t ih =>
    have hf : f.1 ≠ k := h f (List.mem_cons_self f t)
    cases f with
    | mk k' v =>
      simp only [jGet, if_neg hf]
      exact ih fun kv hkv => h kv (List.mem_cons_of_mem _ hkv)

theorem setField_of_absent (l : List (String × Json)) (k : String) (v : Json)
    (h : ∀ kv ∈ l, kv.1 ≠ k) : setField l k v = l ++ [(k, v)] := by
  induction l with
  | nil => rfl
  | cons f t ih =>
    have hf : f.1 ≠ k := h f (List.mem_cons_self f t)
    cases f with
    | mk k' v' =>
      simp only [setField, if_neg hf, List.cons_append]
      rw [ih fun kv hkv => h kv (List.mem_cons_of_mem _ hkv)]

theorem filter_all_true {α : Type} (p : α → Bool) :
    ∀ l : List α, (∀ a ∈ l, p a = true) → l.filter p = l
  | [], _ => rfl
  | a :: t, h => by
    simp only [List.filter, h a (List.mem_cons_self a t)]
    rw [filter_all_true p t fun b hb => h b (List.mem_cons_of_mem _ hb)]

theorem filter_all_false {α : Type} (p : α → Bool) :
    ∀ l : List α, (∀ a ∈ l, p a = false) → l.filter p = []
  | [], _ => rfl
  | a :: t, h => by
    simp only [List.filter, h a (List.mem_cons_self a t)]
    exact filter_all_false p t fun b hb => h b (List.mem_cons_of_mem _ hb)

/-- A key not among the seven standard claim names differs from each
of the three claims `encryptToken` always injects. -/
theorem not_claim_keys {k : String} (h : claimNames.contains k = false) :
    k ≠ "iat" ∧ k ≠ "jti" ∧ k ≠ "exp" := by
  refine ⟨?_, ?_, ?_⟩ <;> rintro rfl <;> exact absurd h (by decide)

/-- `injectClaims` with no audience or issuer on a payload free of the
three always-injected claim names appends `iat`, `jti` and `exp`. -/
theorem injectClaims_of_fresh (now : Int) (cnt : Nat) (opts : EncryptionOptions)
    (l : List (String × Json))
    (haud : opts.audience = none) (hiss : opts.issuer = none)
    (h : ∀ kv ∈ l, kv.1 ≠ "iat" ∧ kv.1 ≠ "jti" ∧ kv.1 ≠ "exp") :
    TokenCrypto.injectClaims now cnt opts l =
      l ++ [("iat", .num now), ("jti", .str (keyName cnt)),
            ("exp", .num (now + opts.expirationTime.getD 7200))] := by
  unfold TokenCrypto.injectClaims
  simp only [haud, hiss]
  rw [setField_of_absent l "iat" _ fun kv hkv => (h kv hkv).1]
  rw [setField_of_absent _ "jti" _ ?hj]
  case hj =>
    intro kv hkv
    rcases List.mem_append.mp hkv with hl | hr
    · exact (h kv hl).2.1
    · rcases List.mem_singleton.mp hr with rfl
      exact (by decide : ("iat" : String) ≠ "jti")
  rw [setField_of_absent _ "exp" _ ?he]
  case he =>
    intro kv hkv
    rcases List.mem_append.mp hkv with hl | hr
    · rcases List.mem_append.mp hl with hll | hlr
      · exact (h kv hll).2.2
      · rcases List.mem_singleton.mp hlr with rfl
        exact (by decide : ("iat" : String) ≠ "exp")
    · rcases List.mem_singleton.mp hr with rfl
      exact (by decide : ("jti" : String) ≠ "exp")
  simp [List.append_assoc]

theorem keyName_inj {m n : Nat} (h : keyName m = keyName n) : m = n := by
  have hd : 'k' :: List.replicate m 'u' = 'k' :: List.replicate n 'u' :=
    congrArg String.data h
  have hr : List.replicate m 'u' = List.replicate n 'u' :=
    (List.cons.injEq _ _ _ _).mp hd |>.2
  have hl := congrArg List.length hr
  simpa using hl

theorem keyName_ne {m n : Nat} (h : m ≠ n) : keyName m ≠ keyName n :=
  fun hc => h (keyName_inj hc)

theorem keyName_data_isEmpty (n : Nat) : (keyName n).data.isEmpty = false := rfl

theorem data_isEmpty_false_of_ne {s : String} (h : s ≠ "") :
    s.data.isEmpty = false := by
  cases hb : s.data.isEmpty
  · rfl
  · exact absurd ((str_data_isEmpty_iff s).mp hb) h

/-- The envelope built by `encryptThenSign` is already canonically
key-sorted. -/
theorem sortJson_envelope (tok hash : String) (ts : Int) :
    sortJson (Json.obj
      [("encrypted", .str tok), ("payloadHash", .str hash),
       ("timestamp", .num ts), ("version", .num 1)]) =
    Json.obj
      [("encrypted", .str tok), ("payloadHash", .str hash),
       ("timestamp", .num ts), ("version", .num 1)] := by
  have hs : List.Sorted keyLe
      [("encrypted", Json.str tok), ("payloadHash", Json.str hash),
       ("timestamp", Json.num ts), ("version", Json.num 1)] := by
    simp only [List.sorted_cons, List.mem_cons, List.not_mem_nil, or_false,
      List.sorted_nil, and_true]
    refine ⟨?_, ?_, ?_, ?_⟩
    · rintro b (rfl | rfl | rfl)
      · exact (by decide : listLeB "encrypted".data "payloadHash".data = true)
      · exact (by decide : listLeB "encrypted".data "timestamp".data = true)
      · exact (by decide : listLeB "encrypted".data "version".data = true)
    · rintro b (rfl | rfl)
      · exact (by decide : listLeB "payloadHash".data "timestamp".data = true)
      · exact (by decide : listLeB "payloadHash".data "version".data = true)
    · rintro b rfl
      exact (by decide : listLeB "timestamp".data "version".data = true)
    · exact fun b h => h.elim
  simp only [sortJson, sortKids]
  rw [List.Sorted.insertionSort_eq hs]

/-- Well-behavedness of the runtime's external codecs on one byte
string `s` (spec §1 treats the codecs as collaborators): any
compressor output for `s` is nonempty and is inverted by the matching
decompressor, and — for the browser's silent brotli→gzip fallback —
gzip output is rejected by the brotli decompressor, so the
decompress-side fallback chain still recovers `s`.  The real node
`zlib`/`brotli` and browser `CompressionStream`/`brotli-wasm` codecs
have these properties (framed, self-inverting, nonempty output). -/
structure CodecFaithful (rt : Runtime) (s : String) : Prop where
  nodeBr : ∀ o out, rt.nodeBrotliCompress s o = some out →
    rt.nodeBrotliDecompress out = some s ∧ out ≠ ""
  browserBr : ∀ o out, rt.browserBrotliCompress s o = some out →
    rt.browserBrotliDecompress out = some s ∧ out ≠ ""
  browserGz : ∀ out, rt.browserGzipCompress s = some out →
    rt.browserBrotliDecompress out = none ∧
    rt.browserGzipDecompress out = some s ∧ out ≠ ""

/-- Whatever `compress` produced for a brotli request — on any
runtime, through any fallback — `decompress` with method brotli
recovers the plaintext, provided the output actually differs from the
input (i.e. some codec fired). -/
theorem decompress_compress_brotli (rt : Runtime) (s out : String)
    (hc : CodecFaithful rt s)
    (hout : compress rt s (TokenCrypto.compressCallOptions .brotli) = out)
    (hne : out ≠ s) :
    decompress rt out (some .brotli) = s ∧ out ≠ "" := by
  have hm : (TokenCrypto.compressCallOptions CompressionMethod.brotli).method =
      some CompressionMethod.brotli := rfl
  unfold compress at hout
  simp only [hm, Option.getD_some] at hout
  rw [if_neg (by decide : ¬ (CompressionMethod.brotli = CompressionMethod.nocomp))] at hout
  unfold decompress
  simp only []
  rw [if_neg (by decide : ¬ (CompressionMethod.brotli = CompressionMethod.nocomp))]
  by_cases hn : rt.isNode = true
  · simp only [hn, if_true] at hout ⊢
    cases hbc : rt.nodeBrotliCompress s (TokenCrypto.compressCallOptions .brotli) with
    | some r =>
      rw [hbc] at hout
      cases hout
      have hinv := hc.nodeBr _ r hbc
      rw [hinv.1]
      exact ⟨rfl, hinv.2⟩
    | none =>
      rw [hbc] at hout
      exact absurd hout.symm hne
  · simp only [Bool.not_eq_true] at hn
    simp only [hn, Bool.false_eq_true, if_false] at hout ⊢
    by_cases hb : rt.isBrowser = true
    · simp only [hb, if_true] at hout ⊢
      by_cases hw : rt.wasmEnabled = true
      · simp only [hw, Bool.not_true, Bool.false_eq_true, if_false] at hout ⊢
        cases hbc : rt.browserBrotliCompress s (TokenCrypto.compressCallOptions .brotli) with
        | some r =>
          rw [hbc] at hout
          cases hout
          have hinv := hc.browserBr _ r hbc
          rw [hinv.1]
          exact ⟨rfl, hinv.2⟩
        | none =>
          rw [hbc] at hout
          cases hgc : rt.browserGzipCompress s with
          | some r =>
            rw [hgc] at hout
            cases hout
            have hinv := hc.browserGz r hgc
            rw [hinv.1, hinv.2.1]
            exact ⟨rfl, hinv.2.2⟩
          | none =>
            rw [hgc] at hout
            exact absurd hout.symm hne
      · simp only [Bool.not_eq_true] at hw
        simp only [hw, Bool.not_false, if_true] at hout ⊢
        cases hgc : rt.browserGzipCompress s with
        | some r =>
          rw [hgc] at hout
          cases hout
          have hinv := hc.browserGz r hgc
          rw [hinv.2.1]
          exact ⟨rfl, hinv.2.2⟩
        | none =>
          rw [hgc] at hout
          exact absurd hout.symm hne
    · simp only [Bool.not_eq_true] at hb
      simp only [hb, Bool.false_eq_true, if_false] at hout ⊢
      exact absurd hout.symm hne

/-- `encryptToken` under an available public key: the exact token data
stored, read off the source unfoldings. -/
theorem encryptToken_ok (rt : Runtime) (w : World) (keyId : String)
    (payload : List (String × Json)) (opts : EncryptionOptions) (kp : KeyPair) (pub : Nat)
    (hk : storeGet w.keys keyId = some kp) (hpub : kp.publicKey = some pub) :
    TokenCrypto.encryptToken rt w keyId payload opts =
      .ok (tokName (w.counter + 1),
        { w with
          ciphertexts := (tokName (w.counter + 1),
            { keyHandle := pub
              header :=
                { alg := kp.alg.getD "RSA-OAEP-256", enc := "A256GCM", kid := keyId
                  zip := if (opts.compress != some (.flag false) &&
                             opts.compress != some (.method .nocomp)) &&
                            decide ((compress rt (serializeStr (.obj payload))
                                (TokenCrypto.compressCallOptions
                                  (TokenCrypto.resolveMethod opts.compress))).length <
                              (serializeStr (.obj payload)).length)
                         then some (TokenCrypto.zipOf (TokenCrypto.resolveMethod opts.compress))
                         else none }
              claims := TokenCrypto.injectClaims w.now w.counter opts
                (if (opts.compress != some (.flag false) &&
                     opts.compress != some (.method .nocomp)) &&
                    decide ((compress rt (serializeStr (.obj payload))
                        (TokenCrypto.compressCallOptions
                          (TokenCrypto.resolveMethod opts.compress))).length <
                      (serializeStr (.obj payload)).length)
                 then TokenCrypto.markerOf
                        (compress rt (serializeStr (.obj payload))
                          (TokenCrypto.compressCallOptions
                            (TokenCrypto.resolveMethod opts.compress)))
                        (serializeStr (.obj payload)).length
                        (TokenCrypto.resolveMethod opts.compress)
                 else payload) }) :: w.ciphertexts
          counter := w.counter + 2 }) := by
  unfold TokenCrypto.encryptToken
  rw [hk]
  simp only [hpub]

/-- `sign` under an available private key: the exact envelope
returned, read off the source unfoldings. -/
theorem sign_ok (keys : KeyStore) (key : String) (obj : Json) (kp : KeyPair) (sk : Nat)
    (hk : storeGet keys key = some kp) (hsk : kp.privateKey = some sk) :
    JsonSignature.sign keys key obj =
      .ok { signature := .valid sk { alg := kp.alg, kid := some key } (stringify obj)
            protEnc := .good { alg := kp.alg, kid := some key }
            payload := sortJson obj } := by
  unfold JsonSignature.sign
  rw [hk]
  simp only [hsk]

/-- `verify` accepts an envelope signed by the matching key under an
explicit key id, returning the canonically sorted payload. -/
theorem verify_ok (keys : KeyStore) (key : String) (kp : KeyPair) (n : Nat) (obj : Json)
    (hk : storeGet keys key = some kp) (hpub : kp.publicKey = some n)
    (hkey : key.data.isEmpty = false)
    (hsorted : sortJson obj = obj) :
    JsonSignature.verify keys
      { signature := .valid n { alg := kp.alg, kid := some key } (stringify obj)
        protEnc := .good { alg := kp.alg, kid := some key }
        payload := sortJson obj } (some key) = .ok obj := by
  unfold JsonSignature.verify
  simp only [JsonSignature.resolvedKid, strFalsy, hkey, Bool.false_eq_true, if_false]
  rw [hk]
  simp only [hpub, hkey, Bool.false_eq_true, if_false, hsorted]
  have halg : JsonSignature.algOk kp.alg kp.alg = true := by
    unfold JsonSignature.algOk
    cases kp.alg with
    | none => rfl
    | some a => simp
  simp [halg]

theorem marker_fresh (out : String) (L : Nat) (m : CompressionMethod) :
    ∀ kv ∈ TokenCrypto.markerOf out L m,
      kv.1 ≠ "iat" ∧ kv.1 ≠ "jti" ∧ kv.1 ≠ "exp" := by
  intro kv hkv
  simp only [TokenCrypto.markerOf, List.mem_cons, List.not_mem_nil, or_false] at hkv
  rcases hkv with rfl | rfl | rfl
  · exact ⟨(by decide : ("_compressed" : String) ≠ "iat"),
      (by decide : ("_compressed" : String) ≠ "jti"),
      (by decide : ("_compressed" : String) ≠ "exp")⟩
  · exact ⟨(by decide : ("_originalSize" : String) ≠ "iat"),
      (by decide : ("_originalSize" : String) ≠ "jti"),
      (by decide : ("_originalSize" : String) ≠ "exp")⟩
  · exact ⟨(by decide : ("_compression" : String) ≠ "iat"),
      (by decide : ("_compression" : String) ≠ "jti"),
      (by decide : ("_compression" : String) ≠ "exp")⟩

/-- `injectClaims` with all-default options appends exactly
`iat`, `jti` and `exp` (two-hour expiry). -/
theorem injectClaims_default (now : Int) (cnt : Nat) (l : List (String × Json))
    (h : ∀ kv ∈ l, kv.1 ≠ "iat" ∧ kv.1 ≠ "jti" ∧ kv.1 ≠ "exp") :
    TokenCrypto.injectClaims now cnt {} l =
      l ++ [("iat", .num now), ("jti", .str (keyName cnt)),
            ("exp", .num (now + 7200))] := by
  have hi := injectClaims_of_fresh now cnt {} l rfl rfl h
  simpa using hi

theorem jGet_marker_compressed (out : String) (L : Nat) (m : CompressionMethod) :
    jGet (TokenCrypto.markerOf out L m) "_compressed" = some (.str out) := rfl

theorem jGet_marker_compression (out : String) (L : Nat) (m : CompressionMethod) :
    jGet (TokenCrypto.markerOf out L m) "_compression" =
      some (.str (TokenCrypto.tagOf m)) := rfl

theorem jGet_marker_exp (out : String) (L : Nat) (m : CompressionMethod) :
    jGet (TokenCrypto.markerOf out L m) "exp" = none := rfl

theorem jGet_extras_exp (now : Int) (cnt : Nat) :
    jGet [("iat", Json.num now), ("jti", Json.str (keyName cnt)),
          ("exp", Json.num (now + 7200))] "exp" = some (.num (now + 7200)) := rfl

theorem jGet_extras_compressed (now : Int) (cnt : Nat) :
    jGet [("iat", Json.num now), ("jti", Json.str (keyName cnt)),
          ("exp", Json.num (now + 7200))] "_compressed" = none := rfl

theorem jGet_extras_compression (now : Int) (cnt : Nat) :
    jGet [("iat", Json.num now), ("jti", Json.str (keyName cnt)),
          ("exp", Json.num (now + 7200))] "_compression" = none := rfl

theorem extras_std (now : Int) (cnt : Nat) :
    ∀ kv ∈ [("iat", Json.num now), ("jti", Json.str (keyName cnt)),
            ("exp", Json.num (now + 7200))],
      claimNames.contains kv.1 = true := by
  intro kv hkv
  simp only [List.mem_cons, List.not_mem_nil, or_false] at hkv
  rcases hkv with rfl | rfl | rfl
  · exact (by decide : claimNames.contains "iat" = true)
  · exact (by decide : claimNames.contains "jti" = true)
  · exact (by decide : claimNames.contains "exp" = true)

/-- A claim-free payload is untouched by the seven-claim strip. -/
theorem stripClaims_of_fresh (P : List (String × Json))
    (hP : ∀ kv ∈ P, claimNames.contains kv.1 = false) :
    stripClaims (.obj P) = .obj P := by
  unfold stripClaims
  simp only [jsSpread]
  congr 1
  exact filter_all_true _ P fun kv hkv => by rw [hP kv hkv]; rfl

/-- Stripping removes exactly an appended block of standard claims. -/
theorem stripClaims_append (P extra : List (String × Json))
    (hP : ∀ kv ∈ P, claimNames.contains kv.1 = false)
    (hextra : ∀ kv ∈ extra, claimNames.contains kv.1 = true) :
    stripClaims (.obj (P ++ extra)) = .obj P := by
  unfold stripClaims
  simp only [jsSpread]
  rw [List.filter_append]
  rw [filter_all_true _ P fun kv hkv => by rw [hP kv hkv]; rfl]
  rw [filter_all_false _ extra fun kv hkv => by rw [hextra kv hkv]; rfl]
  rw [List.append_nil]

/-- The signature envelope `encryptThenSign` builds over payload `P`
in world `w`. -/
def roundEnvelope (rt : Runtime) (w : World) (P : List (String × Json)) : Json :=
  Json.obj [("encrypted", Json.str (tokName (w.counter + 1))),
            ("payloadHash", Json.str (rt.sha256 (stringify (Json.obj P)))),
            ("timestamp", Json.num w.now), ("version", Json.num 1)]

/-- The signed object `encryptThenSign` returns. -/
def roundSigned (rt : Runtime) (w : World) (skp : KeyPair) (skKey : String) (skh : Nat)
    (P : List (String × Json)) : SignedObject :=
  { signature := .valid skh { alg := skp.alg, kid := some skKey }
      (stringify (roundEnvelope rt w P))
    protEnc := .good { alg := skp.alg, kid := some skKey }
    payload := sortJson (roundEnvelope rt w P) }

/-- The three standard claims always injected by `encryptToken` with
default options. -/
def stdExtras (w : World) : List (String × Json) :=
  [("iat", Json.num w.now), ("jti", Json.str (keyName w.counter)),
   ("exp", Json.num (w.now + 7200))]

/-- The world after `encryptToken` stored the fresh ciphertext. -/
def roundWorld (w : World) (ekp : KeyPair) (ekKey : String) (ekh : Nat)
    (claims : List (String × Json)) (zip : Option String) : World :=
  { keys := w.keys
    ciphertexts := (tokName (w.counter + 1),
      { keyHandle := ekh
        header := { alg := ekp.alg.getD "RSA-OAEP-256", enc := "A256GCM",
                    kid := ekKey, zip := zip }
        claims := claims }) :: w.ciphertexts
    counter := w.counter + 2
    now := w.now }

/-- Core of the encrypt-then-sign round trip, stated over explicit
key-store facts (the claim's fresh key generation is discharged by the
instantiating theorem).  A claim-free payload that does not itself
carry the compressed-payload marker shape survives the full
`encryptThenSign` / `verifyThenDecrypt` pipeline, on every runtime
whose `JSON.parse` inverts serialization and whose codecs are
faithful. -/
theorem roundtrip_core (rt : Runtime) (w₂ : World) (skKey ekKey : String)
    (skp ekp : KeyPair) (skh ekh : Nat) (P : List (String × Json))
    (hsk : storeGet w₂.keys skKey = some skp)
    (hskpub : skp.publicKey = some skh) (hskpriv : skp.privateKey = some skh)
    (hek : storeGet w₂.keys ekKey = some ekp)
    (hekpub : ekp.publicKey = some ekh) (hekpriv : ekp.privateKey = some ekh)
    (hskne : skKey.data.isEmpty = false)
    (hP : ∀ kv ∈ P, claimNames.contains kv.1 = false)
    (hM : ¬(jsTruthyOpt (jGet P "_compressed") = true ∧
            jsTruthyOpt (jGet P "_compression") = true))
    (hparse : rt.jsonParse (serializeStr (.obj P)) = some (.obj P))
    (hcodec : CodecFaithful rt (serializeStr (.obj P))) :
    ∃ signed w₃ d,
      CloudlessCrypto.encryptThenSign rt w₂ ekKey skKey P {} = .ok (signed, w₃) ∧
      CloudlessCrypto.verifyThenDecrypt rt w₃ skKey ekKey signed = .ok d ∧
      ∀ k v, jGet P k = some v → getField d k = some v := by
  have henc := encryptToken_ok rt w₂ ekKey P {} ekp ekh hek hekpub
  have hA : (({} : EncryptionOptions).compress != some (CompressSetting.flag false) &&
      ({} : EncryptionOptions).compress !=
        some (CompressSetting.method CompressionMethod.nocomp)) = true := rfl
  have hB : TokenCrypto.resolveMethod ({} : EncryptionOptions).compress =
      CompressionMethod.brotli := rfl
  rw [hB, hA, Bool.true_and] at henc
  have hsign := sign_ok w₂.keys skKey
    (Json.obj [("encrypted", Json.str (tokName (w₂.counter + 1))),
               ("payloadHash", Json.str (rt.sha256 (stringify (Json.obj P)))),
               ("timestamp", Json.num w₂.now), ("version", Json.num 1)])
    skp skh hsk hskpriv
  have hverify := verify_ok w₂.keys skKey skp skh
    (Json.obj [("encrypted", Json.str (tokName (w₂.counter + 1))),
               ("payloadHash", Json.str (rt.sha256 (stringify (Json.obj P)))),
               ("timestamp", Json.num w₂.now), ("version", Json.num 1)])
    hsk hskpub hskne (sortJson_envelope _ _ _)
  have hgf : getField
      (Json.obj [("encrypted", Json.str (tokName (w₂.counter + 1))),
                 ("payloadHash", Json.str (rt.sha256 (stringify (Json.obj P)))),
                 ("timestamp", Json.num w₂.now), ("version", Json.num 1)])
      "encrypted" = some (Json.str (tokName (w₂.counter + 1))) := rfl
  have hgph : getField
      (Json.obj [("encrypted", Json.str (tokName (w₂.counter + 1))),
                 ("payloadHash", Json.str (rt.sha256 (stringify (Json.obj P)))),
                 ("timestamp", Json.num w₂.now), ("version", Json.num 1)])
      "payloadHash" = some (Json.str (rt.sha256 (stringify (Json.obj P)))) := rfl
  by_cases hlt : (compress rt (serializeStr (Json.obj P))
      (TokenCrypto.compressCallOptions CompressionMethod.brotli)).length <
      (serializeStr (Json.obj P)).length
  · -- compressed path: the marker replaces the payload
    have hne : compress rt (serializeStr (Json.obj P))
        (TokenCrypto.compressCallOptions CompressionMethod.brotli) ≠
        serializeStr (Json.obj P) := by
      intro he
      rw [he] at hlt
      exact absurd hlt (lt_irrefl _)
    have hdec2 := decompress_compress_brotli rt (serializeStr (Json.obj P))
      (compress rt (serializeStr (Json.obj P))
        (TokenCrypto.compressCallOptions CompressionMethod.brotli)) hcodec rfl hne
    rw [if_pos (decide_eq_true hlt)] at henc
    rw [if_pos (decide_eq_true hlt)] at henc
    rw [injectClaims_default w₂.now w₂.counter _ (marker_fresh _ _ _)] at henc
    have hexp : TokenCrypto.expOk w₂.now
        (TokenCrypto.markerOf
            (compress rt (serializeStr (Json.obj P))
              (TokenCrypto.compressCallOptions CompressionMethod.brotli))
            (serializeStr (Json.obj P)).length CompressionMethod.brotli ++
          [("iat", Json.num w₂.now), ("jti", Json.str (keyName w₂.counter)),
           ("exp", Json.num (w₂.now + 7200))]) = true := by
      unfold TokenCrypto.expOk
      rw [jGet_append_of_none_left _ _ _ (jGet_marker_exp _ _ _), jGet_extras_exp]
      exact decide_eq_true (by omega)
    have hgc := jGet_append_left _
      [("iat", Json.num w₂.now), ("jti", Json.str (keyName w₂.counter)),
       ("exp", Json.num (w₂.now + 7200))] _ _
      (jGet_marker_compressed
        (compress rt (serializeStr (Json.obj P))
          (TokenCrypto.compressCallOptions CompressionMethod.brotli))
        (serializeStr (Json.obj P)).length CompressionMethod.brotli)
    have hgc2 := jGet_append_left _
      [("iat", Json.num w₂.now), ("jti", Json.str (keyName w₂.counter)),
       ("exp", Json.num (w₂.now + 7200))] _ _
      (jGet_marker_compression
        (compress rt (serializeStr (Json.obj P))
          (TokenCrypto.compressCallOptions CompressionMethod.brotli))
        (serializeStr (Json.obj P)).length CompressionMethod.brotli)
    have houtE : (compress rt (serializeStr (Json.obj P))
        (TokenCrypto.compressCallOptions CompressionMethod.brotli)).data.isEmpty = false :=
      data_isEmpty_false_of_ne hdec2.2
    have hbrE : (TokenCrypto.tagOf CompressionMethod.brotli).data.isEmpty = false := rfl
    have hmt : TokenCrypto.methodOfTag (TokenCrypto.tagOf CompressionMethod.brotli) =
        CompressionMethod.brotli := rfl
    refine ⟨roundSigned rt w₂ skp skKey skh P,
      roundWorld w₂ ekp ekKey ekh
        (TokenCrypto.markerOf
            (compress rt (serializeStr (Json.obj P))
              (TokenCrypto.compressCallOptions CompressionMethod.brotli))
            (serializeStr (Json.obj P)).length CompressionMethod.brotli ++
          [("iat", Json.num w₂.now), ("jti", Json.str (keyName w₂.counter)),
           ("exp", Json.num (w₂.now + 7200))])
        (some (TokenCrypto.zipOf CompressionMethod.brotli)),
      Json.obj P, ?_, ?_, ?_⟩
    · unfold CloudlessCrypto.encryptThenSign
      simp only [henc, hsign, roundSigned, roundEnvelope, roundWorld]
    · simp only [roundSigned, roundEnvelope, roundWorld]
      unfold CloudlessCrypto.verifyThenDecrypt
      simp only [hverify, VerifyResult.toJson, hgf]
      unfold TokenCrypto.decryptToken
      simp only [hek, hekpriv]
      rw [tokGet_cons_self]
      simp only [beq_self_eq_true, reduceIte, hexp]
      simp only [hgc, hgc2, jsTruthyOpt, jsTruthy, houtE, hbrE, Bool.not_false,
        Bool.and_self, reduceIte]
      rw [hmt, hdec2.1, hparse]
      simp only [stripClaims_of_fresh P hP, hgph, beq_self_eq_true, reduceIte]
    · exact fun k v h => h
  · -- uncompressed path: the payload is encrypted untouched
    rw [if_neg (fun hd => hlt (of_decide_eq_true hd))] at henc
    rw [if_neg (fun hd => hlt (of_decide_eq_true hd))] at henc
    rw [injectClaims_default w₂.now w₂.counter P
      (fun kv hkv => not_claim_keys (hP kv hkv))] at henc
    have hexp : TokenCrypto.expOk w₂.now
        (P ++ [("iat", Json.num w₂.now), ("jti", Json.str (keyName w₂.counter)),
               ("exp", Json.num (w₂.now + 7200))]) = true := by
      unfold TokenCrypto.expOk
      rw [jGet_append_of_none_left _ _ _
        (jGet_none_of_keys P "exp" fun kv hkv => (not_claim_keys (hP kv hkv)).2.2),
        jGet_extras_exp]
      exact decide_eq_true (by omega)
    have hgc : jGet (P ++ [("iat", Json.num w₂.now), ("jti", Json.str (keyName w₂.counter)),
        ("exp", Json.num (w₂.now + 7200))]) "_compressed" = jGet P "_compressed" :=
      jGet_append_of_none_right _ _ _ (jGet_extras_compressed _ _)
    have hgc2 : jGet (P ++ [("iat", Json.num w₂.now), ("jti", Json.str (keyName w₂.counter)),
        ("exp", Json.num (w₂.now + 7200))]) "_compression" = jGet P "_compression" :=
      jGet_append_of_none_right _ _ _ (jGet_extras_compression _ _)
    have hcondf : (jsTruthyOpt (jGet P "_compressed") &&
        jsTruthyOpt (jGet P "_compression")) = false := by
      cases ha : jsTruthyOpt (jGet P "_compressed") <;>
        cases hb : jsTruthyOpt (jGet P "_compression") <;> simp_all
    refine ⟨roundSigned rt w₂ skp skKey skh P,
      roundWorld w₂ ekp ekKey ekh
        (P ++ [("iat", Json.num w₂.now), ("jti", Json.str (keyName w₂.counter)),
               ("exp", Json.num (w₂.now + 7200))]) none,
      Json.obj (P ++ [("iat", Json.num w₂.now), ("jti", Json.str (keyName w₂.counter)),
               ("exp", Json.num (w₂.now + 7200))]), ?_, ?_, ?_⟩
    · unfold CloudlessCrypto.encryptThenSign
      simp only [henc, hsign, roundSigned, roundEnvelope, roundWorld]
    · simp only [roundSigned, roundEnvelope, roundWorld]
      unfold CloudlessCrypto.verifyThenDecrypt
      simp only [hverify, VerifyResult.toJson, hgf]
      unfold TokenCrypto.decryptToken
      simp only [hek, hekpriv]
      rw [tokGet_cons_self]
      simp only [beq_self_eq_true, reduceIte, hexp]
      simp only [hgc, hgc2, hcondf, Bool.false_eq_true, reduceIte]
      simp only [stripClaims_append P _ hP (extras_std _ _), hgph,
        beq_self_eq_true, reduceIte]
    · exact fun k v h => jGet_append_left P _ k v h

/-- C1 (amended): the encrypt-then-sign round trip.  For every
payload `P` free of the seven standard claim names that does not
itself carry the compressed-payload marker shape (truthy
`_compressed` together with truthy `_compression`), and fresh signing
and encryption key pairs generated into the same key store,
`verifyThenDecrypt (S, E, encryptThenSign (E, S, P))` succeeds and
returns an object containing every field of `P` with its original
value (modulo the injected standard claims) — on every runtime whose
`JSON.parse` inverts serialization of `P` and whose codecs are
faithful (`CodecFaithful`).  The marker-shape exclusion is necessary:
see the counterexample `roundtrip_fails_on_marker_collision`. -/
theorem encrypt_then_sign_roundtrip (rt : Runtime) (w : World) (P : List (String × Json))
    (hP : ∀ kv ∈ P, claimNames.contains kv.1 = false)
    (hM : ¬(jsTruthyOpt (jGet P "_compressed") = true ∧
            jsTruthyOpt (jGet P "_compression") = true))
    (hparse : rt.jsonParse (serializeStr (.obj P)) = some (.obj P))
    (hcodec : CodecFaithful rt (serializeStr (.obj P))) :
    ∃ signed w₃ d,
      CloudlessCrypto.encryptThenSign rt
          (TokenCrypto.generateKeyPairForEncryption
            (JsonSignature.generateKeyPair w "PS256").2 "RSA-OAEP-256").2
          (TokenCrypto.generateKeyPairForEncryption
            (JsonSignature.generateKeyPair w "PS256").2 "RSA-OAEP-256").1
          (JsonSignature.generateKeyPair w "PS256").1 P {} = .ok (signed, w₃) ∧
      CloudlessCrypto.verifyThenDecrypt rt w₃
          (JsonSignature.generateKeyPair w "PS256").1
          (TokenCrypto.generateKeyPairForEncryption
            (JsonSignature.generateKeyPair w "PS256").2 "RSA-OAEP-256").1 signed =
        .ok d ∧
      ∀ k v, jGet P k = some v → getField d k = some v := by
  have hsk : storeGet
      ((keyName (w.counter + 1),
          { publicKey := some (w.counter + 1), privateKey := some (w.counter + 1),
            alg := some "RSA-OAEP-256" }) ::
        (keyName w.counter,
          { publicKey := some w.counter, privateKey := some w.counter,
            alg := some "PS256" }) :: w.keys) (keyName w.counter) =
      some { publicKey := some w.counter, privateKey := some w.counter,
             alg := some "PS256" } := by
    rw [storeGet_cons_ne _ _ _ _ (keyName_ne (by omega))]
    exact storeGet_cons_self _ _ _
  have hek : storeGet
      ((keyName (w.counter + 1),
          { publicKey := some (w.counter + 1), privateKey := some (w.counter + 1),
            alg := some "RSA-OAEP-256" }) ::
        (keyName w.counter,
          { publicKey := some w.counter, privateKey := some w.counter,
            alg := some "PS256" }) :: w.keys) (keyName (w.counter + 1)) =
      some { publicKey := some (w.counter + 1), privateKey := some (w.counter + 1),
             alg := some "RSA-OAEP-256" } :=
    storeGet_cons_self _ _ _
  exact roundtrip_core rt
    (TokenCrypto.generateKeyPairForEncryption
      (JsonSignature.generateKeyPair w "PS256").2 "RSA-OAEP-256").2
    (JsonSignature.generateKeyPair w "PS256").1
    (TokenCrypto.generateKeyPairForEncryption
      (JsonSignature.generateKeyPair w "PS256").2 "RSA-OAEP-256").1
    { publicKey := some w.counter, privateKey := some w.counter, alg := some "PS256" }
    { publicKey := some (w.counter + 1), privateKey := some (w.counter + 1),
      alg := some "RSA-OAEP-256" }
    w.counter (w.counter + 1) P hsk rfl rfl hek rfl rfl rfl hP hM hparse hcodec

/-- C1 counterexample payload: contains none of the seven standard
claim names, but happens to have the `CompressedPayloadMarker` shape
(truthy `_compressed` and `_compression` fields). -/
def c1BadPayload : List (String × Json) :=
  [("_compressed", .str "x"), ("_compression", .str "y")]

/-- The world after generating a fresh signing pair (uuid `"k"`) and a
fresh encryption pair (uuid `"ku"`) from the empty world. -/
def c1World : World :=
  (TokenCrypto.generateKeyPairForEncryption
    (JsonSignature.generateKeyPair ⟨[], [], 0, 0⟩ "PS256").2 "RSA-OAEP-256").2

/-- C1 counterexample, evaluated: for the marker-shaped payload —
which contains none of the seven standard claim names — the round
trip FAILS.  `encryptToken` leaves the payload uncompressed (the
compressed form is not smaller), but `decryptToken` sees truthy
`_compressed`/`_compression` in the decrypted claims, treats the
payload's own fields as a compression marker, feeds `"x"` through
decompression and `JSON.parse`, and the parse fails — refuting the
claim's unconditional round trip for arbitrary claim-free payloads. -/
theorem roundtrip_fails_on_marker_collision :
    (∀ kv ∈ c1BadPayload, claimNames.contains kv.1 = false) ∧
    ((CloudlessCrypto.encryptThenSign (nodeRt []) c1World "ku" "k" c1BadPayload
        {}).toOption.map fun p =>
          exceptErr (CloudlessCrypto.verifyThenDecrypt (nodeRt []) p.2 "k" "ku" p.1)) =
      some (some "Token decryption failed: unexpected token in JSON") := by
  constructor
  · decide
  · decide

/-- C1 witness payload. -/
def c1GoodPayload : List (String × Json) := [("a", .num 1)]

/-- `JSON.parse` table for the C1 witness: correct on the serialized
witness payload. -/
def c1Tbl : List (String × Json) :=
  [(serializeStr (.obj c1GoodPayload), .obj c1GoodPayload)]

/-- Witness for `encrypt_then_sign_roundtrip`: a concrete claim-free,
marker-free payload on a concrete Node runtime round-trips. -/
theorem encrypt_then_sign_roundtrip_witness :
    (∀ kv ∈ c1GoodPayload, claimNames.contains kv.1 = false) ∧
    ¬(jsTruthyOpt (jGet c1GoodPayload "_compressed") = true ∧
      jsTruthyOpt (jGet c1GoodPayload "_compression") = true) ∧
    (nodeRt c1Tbl).jsonParse (serializeStr (.obj c1GoodPayload)) =
      some (.obj c1GoodPayload) ∧
    ∃ signed w₃ d,
      CloudlessCrypto.encryptThenSign (nodeRt c1Tbl)
          (TokenCrypto.generateKeyPairForEncryption
            (JsonSignature.generateKeyPair ⟨[], [], 0, 0⟩ "PS256").2 "RSA-OAEP-256").2
          (TokenCrypto.generateKeyPairForEncryption
            (JsonSignature.generateKeyPair ⟨[], [], 0, 0⟩ "PS256").2 "RSA-OAEP-256").1
          (JsonSignature.generateKeyPair ⟨[], [], 0, 0⟩ "PS256").1 c1GoodPayload {} =
        .ok (signed, w₃) ∧
      CloudlessCrypto.verifyThenDecrypt (nodeRt c1Tbl) w₃
          (JsonSignature.generateKeyPair ⟨[], [], 0, 0⟩ "PS256").1
          (TokenCrypto.generateKeyPairForEncryption
            (JsonSignature.generateKeyPair ⟨[], [], 0, 0⟩ "PS256").2
            "RSA-OAEP-256").1 signed = .ok d ∧
      ∀ k v, jGet c1GoodPayload k = some v → getField d k = some v := by
  refine ⟨by decide, by decide, by decide, ?_⟩
  refine encrypt_then_sign_roundtrip (nodeRt c1Tbl) ⟨[], [], 0, 0⟩ c1GoodPayload
    (by decide) (by decide) (by decide) ⟨?_, ?_, ?_⟩
  · intro o out h
    rw [← Option.some.inj h]
    exact ⟨by decide, by decide⟩
  · intro o out h
    exact Option.noConfusion h
  · intro out h
    exact Option.noConfusion h

end Cloudless
